import Mathlib

/-!
Verification development for the reliable-UDP file transfer program
(server.c / rcopy.c / window.c / circular_buffer.c / protocol.h).

The C sources are shallowly embedded: machine integers become `Nat`
(sequence counters are monotone and the design assumes fewer than 2^32
frames per session, so they are modeled as unbounded naturals), while the
uint32 expressions that can wrap at small operand values -- `win->base - 1`
and the `0xFFFFFFFF - base + ack + 1` formula in window_mark_ack -- are
modeled exactly with explicit arithmetic modulo 2^32.  Byte buffers are
`List Nat`, `NULL` pointers become `none`, and the function-local `static`
counters of the C sources are threaded explicitly as state.
-/

namespace Prog3

/-! ### Machine integers and bytes -/

/-- 2^32, the modulus of the uint32 sequence arithmetic. -/
def M32 : Nat := 4294967296

/-- uint32 subtraction `a - b` with wraparound, exact for `a, b < M32`. -/
def u32sub (a b : Nat) : Nat := (a % M32 + (M32 - b % M32)) % M32

/-- uint32 `a - 1`, as computed by the C sources on `uint32_t` values. -/
def u32pred (a : Nat) : Nat := u32sub a 1

/-- Big-endian 4-byte encoding (htonl followed by memcpy in the sources). -/
def toBytesBE4 (n : Nat) : List Nat :=
  [n / 2 ^ 24 % 256, n / 2 ^ 16 % 256, n / 2 ^ 8 % 256, n % 256]

/-- Group bytes into 16-bit words the way in_cksum walks memory (an odd
trailing byte is added as a single byte value). -/
def bytesToWords16 : List Nat → List Nat
  | [] => []
  | [b] => [b]
  | b0 :: b1 :: rest => (b0 + 256 * b1) :: bytesToWords16 rest

/-- The 16-bit Internet checksum (in_cksum of the course library): sum the
16-bit words, fold the carries back in twice, and complement the low 16
bits. -/
def inCksum (bytes : List Nat) : Nat :=
  let s0 := (bytesToWords16 bytes).sum
  let s1 := s0 % 65536 + s0 / 65536
  let s2 := s1 + s1 / 65536
  65535 - s2 % 65536

/-! ### Protocol constants (protocol.h) -/

def MAX_DATA_SIZE : Nat := 1400
def HEADER_SIZE : Nat := 7
def MAX_RETRANSMIT : Nat := 10
def INIT_RETRY_LIMIT : Nat := 10
def DATA_TIMEOUT : Nat := 10000

def FLAG_RR : Nat := 5
def FLAG_SREJ : Nat := 6
def FLAG_FILENAME : Nat := 8
def FLAG_FILENAME_RESP : Nat := 9
def FLAG_EOF : Nat := 10
def FLAG_DATA : Nat := 16
def FLAG_RESENT_SREJ : Nat := 17
def FLAG_RESENT_TIMEOUT : Nat := 18

/-! ### PDUs

A PDU is the 7-byte header (pdu_header_t: 32-bit seq, 16-bit checksum,
8-bit flag) followed by the payload bytes.  The sources store complete
encoded PDUs in the window slots; here a PDU is kept structured, with
`encodeZeroCk` giving the byte layout used for checksum computation
(checksum field zeroed, seq in network byte order). -/

structure Pdu where
  seq_num : Nat
  checksum : Nat
  flag : Nat
  payload : List Nat
  deriving Repr, DecidableEq

/-- Byte layout of a PDU with the checksum field zeroed, as assembled by
the sources before calling in_cksum. -/
def encodeZeroCk (p : Pdu) : List Nat :=
  toBytesBE4 p.seq_num ++ [0, 0] ++ [p.flag] ++ p.payload

/-- Recompute the checksum of a PDU over its bytes with the checksum field
treated as zero (the `in_cksum` call every sender-side send performs). -/
def freshCksum (p : Pdu) : Nat := inCksum (encodeZeroCk p)

/-- Build a PDU the way the sources do: fill header and payload, then
compute the checksum over the assembled bytes and write it back. -/
def mkPdu (seq flag : Nat) (payload : List Nat) : Pdu :=
  { seq_num := seq,
    checksum := freshCksum { seq_num := seq, checksum := 0, flag := flag, payload := payload },
    flag := flag, payload := payload }

/-- Total length of the encoded PDU (header plus payload). -/
def pduLen (p : Pdu) : Nat := HEADER_SIZE + p.payload.length

/-! ### The sliding window (window.h / window.c) -/

/-- packet_t of window.h.  `data = none` models a NULL data pointer. -/
structure Packet where
  seq_num : Nat
  len : Nat
  flag : Nat
  data : Option Pdu
  acknowledged : Bool
  retransmit_count : Nat
  deriving Repr, DecidableEq

/-- The all-zero packet slot produced by calloc in window_init and by the
slot-clearing code in window_slide. -/
def Packet.cleared : Packet :=
  { seq_num := 0, len := 0, flag := 0, data := none,
    acknowledged := false, retransmit_count := 0 }

/-- window_t of window.h. -/
structure Window where
  packets : List Packet
  window_size : Nat
  base : Nat
  next_seq : Nat
  deriving Repr, DecidableEq

/-- window_init: `window_size` zeroed slots, base 0, next_seq 0. -/
def windowInit (w : Nat) : Window :=
  { packets := List.replicate w Packet.cleared, window_size := w,
    base := 0, next_seq := 0 }

/-- Read slot `i` (the C code only ever indexes in bounds). -/
def Window.slot (win : Window) (i : Nat) : Packet :=
  win.packets.getD i Packet.cleared

/-- Generic slot scan `for (i = 0; i < w; i++) { alt = (start + i) % w; ... }`
used by window.c for alternate-slot searches; returns the first index whose
slot satisfies `p`.  The `primary index first, then scan` pattern of the C
code is this scan, because the scan re-checks the primary index at i = 0. -/
def scanSlots (win : Window) (start : Nat) (p : Packet → Bool) : List Nat → Option Nat
  | [] => none
  | j :: rest =>
      let alt := (start + j) % win.window_size
      if p (win.slot alt) then some alt else scanSlots win start p rest

/-- The alternate-slot search of window_add_packet: first index (from the
expected one) whose slot is empty or acknowledged; the expected index if
none is found. -/
def findAltSlot (win : Window) (index : Nat) : Nat :=
  match scanSlots win index (fun pk => pk.data.isNone || pk.acknowledged)
      (List.range win.window_size) with
  | some alt => alt
  | none => index

/-- window_add_packet.  Returns the C return value (-2 for a far-ahead
packet, else the slot index used) together with the updated window.
The comparison `seq_num > base + 2*window_size` is uint32 in C; it is
modeled in plain naturals, which agrees with the C result whenever
`base + 2*window_size < 2^32` (the regime of every theorem below). -/
def windowAddPacket (win : Window) (seq_num : Nat) (d : Pdu) (len flag : Nat) :
    Int × Window :=
  let w := win.window_size
  let index := seq_num % w
  if win.base + 2 * w < seq_num then (-2, win)
  else
    let index :=
      if (win.slot index).data ≠ none ∧ (win.slot index).seq_num ≠ seq_num then
        if win.base ≤ seq_num ∧ seq_num < win.base + w then findAltSlot win index
        else index
      else index
    let newPk : Packet :=
      { seq_num := seq_num, len := len, flag := flag, data := some d,
        acknowledged := false, retransmit_count := 0 }
    (Int.ofNat index, { win with packets := win.packets.set index newPk })

/-- Mark the packet for `seq` acknowledged: primary index first, then a
scan of the whole window (the body of the marking loop of
window_mark_ack).  If no slot carries `seq`, nothing changes. -/
def markLoopBody (win : Window) (seq : Nat) : Window :=
  match scanSlots win (seq % win.window_size) (fun pk => pk.seq_num == seq)
      (List.range win.window_size) with
  | some j =>
      { win with packets := win.packets.set j ({ win.slot j with acknowledged := true }) }
  | none => win

/-- The marking loop of window_mark_ack over the listed sequence numbers. -/
def markSeqs (win : Window) : List Nat → Window
  | [] => win
  | s :: rest => markSeqs (markLoopBody win s) rest

/-- The static locals last_repeated_ack / repeat_count of
window_mark_ack (process-wide in C, threaded explicitly here). -/
structure AckStatics where
  last_repeated_ack : Nat
  repeat_count : Nat
  deriving Repr, DecidableEq

/-- window_mark_ack.  The second static-reset block of the C source
declares shadowing static variables and resets those, so it has no
observable effect and is not modeled. -/
def windowMarkAck (st : AckStatics) (win : Window) (ack_seq : Nat) :
    AckStatics × Window :=
  if ack_seq = u32pred win.base then
    if st.last_repeated_ack = ack_seq then
      let c := st.repeat_count + 1
      if 3 ≤ c then
        let idx := win.base % win.window_size
        let win' :=
          if (win.slot idx).data ≠ none ∧ (win.slot idx).seq_num = win.base then
            { win with packets :=
                win.packets.set idx ({ win.slot idx with acknowledged := false }) }
          else win
        ({ st with repeat_count := c }, win')
      else ({ st with repeat_count := c }, win)
    else ({ last_repeated_ack := ack_seq, repeat_count := 1 }, win)
  else
    if ack_seq < win.base ∧ 5 < win.base - ack_seq then (st, win)
    else
      let ptam := if win.base ≤ ack_seq then ack_seq - win.base + 1
                  else M32 - win.base + ack_seq
      let ptam := if win.window_size < ptam then win.window_size else ptam
      (st, markSeqs win ((List.range ptam).map (win.base + ·)))

/-- One sliding step plus the remaining fuel (window_slide performs at most
window_size slides per call, enforced by its packets_slid safety check). -/
def windowSlideLoop (win : Window) : Nat → Window
  | 0 => win
  | fuel + 1 =>
      match scanSlots win (win.base % win.window_size)
          (fun pk => pk.seq_num == win.base && pk.acknowledged)
          (List.range win.window_size) with
      | none => win
      | some idx =>
          windowSlideLoop
            { win with packets := win.packets.set idx Packet.cleared,
                       base := win.base + 1 } fuel

/-- window_slide. -/
def windowSlide (win : Window) : Window := windowSlideLoop win win.window_size

/-- window_get_packet: range checks, then primary-index-first scan for a
slot with matching seq and non-NULL data.  Returns the slot index. -/
def windowGetPacket (win : Window) (seq_num : Nat) : Option Nat :=
  if seq_num < win.base ∧ win.window_size < win.base - seq_num then none
  else if win.base + win.window_size * 2 ≤ seq_num then none
  else
    scanSlots win (seq_num % win.window_size)
      (fun pk => pk.seq_num == seq_num && pk.data.isSome)
      (List.range win.window_size)


/-- RR(a) processing on the sender: window_mark_ack followed immediately by
window_slide, the pair of calls at every RR-handling site of server.c.  The
mark_ack statics ride along. -/
def rrApply (s : AckStatics × Window) (a : Nat) : AckStatics × Window :=
  let r := windowMarkAck s.1 s.2 a
  (r.1, windowSlide r.2)

/-- A live data slot used in concrete window states. -/
def livePacket (s : Nat) : Packet :=
  { seq_num := s, len := 7, flag := FLAG_DATA, data := some (mkPdu s FLAG_DATA []),
    acknowledged := false, retransmit_count := 0 }

/-- Concrete 2-slot sender window refuting idempotence of RR processing:
base 0, slot 0 holds seq 0, slot 1 holds the far-ahead seq 2. -/
def c9win : Window :=
  { packets := [livePacket 0, livePacket 2], window_size := 2, base := 0, next_seq := 2 }

/-- A well-formed 2-slot window (distinct in-range seqs, all
unacknowledged) used as the witness input of the amended C9 theorem. -/
def c9idealwin : Window :=
  { packets := [livePacket 0, livePacket 1], window_size := 2, base := 0, next_seq := 2 }


/-- Pointwise form of one marking step: acknowledge the packets whose
sequence number is `s` (used to state lemmas about the marking loop). -/
def ackMarked (s : Nat) (p : Packet) : Packet :=
  if p.seq_num = s then { p with acknowledged := true } else p

/-- Pointwise form of the whole marking loop over the listed seqs. -/
def ackMarkedIn (L : List Nat) (p : Packet) : Packet :=
  if p.seq_num ∈ L then { p with acknowledged := true } else p

/-- Pointwise form of window_slide on a window whose acknowledged packets
form exactly the slid range: acknowledged slots are cleared. -/
def clearAcked (p : Packet) : Packet :=
  if p.acknowledged then Packet.cleared else p


/-! ### The replay circular buffer (circular_buffer.h / circular_buffer.c) -/

/-- circular_buffer_t. -/
structure CircBuf where
  data : List Nat
  size : Nat
  head : Nat
  tail : Nat
  bytes_stored : Nat
  start_seq : Nat
  end_seq : Nat
  buffer_size : Nat
  deriving Repr, DecidableEq

/-- circular_buffer_init (malloc leaves the byte array uninitialized; it is
modeled as zeros, and no code path reads bytes before writing them). -/
def cbInit (size buffer_size : Nat) : CircBuf :=
  { data := List.replicate size 0, size := size, head := 0, tail := 0,
    bytes_stored := 0, start_seq := 0, end_seq := 0, buffer_size := buffer_size }

/-- memcpy of `src` into `dst` at offset `pos` (always in bounds at the
call sites). -/
def listWriteAt (dst : List Nat) (pos : Nat) (src : List Nat) : List Nat :=
  dst.take pos ++ src ++ dst.drop (pos + src.length)

/-- The eviction loop of circular_buffer_write: oldest packet-sized regions
are dropped until the new data fits.  The C loop frees at least one byte
per iteration whenever buffer_size ≥ 1, so fuel `bytes_stored + 1` never
runs out; fuel only makes the model total.  Arguments after the fuel:
head, bytes_stored, bytes_to_free, seqs_to_remove; result is the final
(head, bytes_stored, seqs_to_remove). -/
def cbEvictLoop (size bsize : Nat) : Nat → Nat → Nat → Nat → Nat → Nat × Nat × Nat
  | 0, head, stored, _, seqs => (head, stored, seqs)
  | fuel + 1, head, stored, to_free, seqs =>
      if 0 < to_free ∧ 0 < stored then
        let psize := if seqs = 0 then bsize - head % bsize else bsize
        let psize := if stored < psize then stored else psize
        cbEvictLoop size bsize fuel ((head + psize) % size) (stored - psize)
          (if psize < to_free then to_free - psize else 0) (seqs + 1)
      else (head, stored, seqs)

/-- The wrapped memcpy of circular_buffer_write at the tail position. -/
def cbWriteBytes (cb : CircBuf) (src : List Nat) (len : Nat) : List Nat :=
  if cb.tail + len ≤ cb.size then listWriteAt cb.data cb.tail (src.take len)
  else
    let first_chunk := cb.size - cb.tail
    listWriteAt (listWriteAt cb.data cb.tail (src.take first_chunk)) 0
      ((src.drop first_chunk).take (len - first_chunk))

/-- circular_buffer_write.  Returns the C return value (0 on success, -1
when the data still does not fit after eviction) and the updated buffer;
note that the eviction performed before a -1 return persists, as in the C
code. -/
def cbWrite (cb : CircBuf) (src : List Nat) (len seq_num : Nat) : Int × CircBuf :=
  let cb :=
    if cb.size < cb.bytes_stored + len then
      let r := cbEvictLoop cb.size cb.buffer_size (cb.bytes_stored + 1)
        cb.head cb.bytes_stored len 0
      { cb with head := r.1, bytes_stored := r.2.1, start_seq := cb.start_seq + r.2.2 }
    else cb
  if cb.size < cb.bytes_stored + len then (-1, cb)
  else
    let data := cbWriteBytes cb src len
    let tail := (cb.tail + len) % cb.size
    let stored := cb.bytes_stored + len
    let endSeq := if cb.end_seq ≤ seq_num then seq_num + 1 else cb.end_seq
    (0, { cb with data := data, tail := tail, bytes_stored := stored, end_seq := endSeq })

/-- The wrapped copy-out of circular_buffer_read_seq. -/
def cbSlice (cb : CircBuf) (position len : Nat) : List Nat :=
  if position + len ≤ cb.size then (cb.data.drop position).take len
  else
    let first_chunk := cb.size - position
    (cb.data.drop position).take first_chunk ++ cb.data.take (len - first_chunk)

/-- circular_buffer_read_seq.  `none` models the -1 return; `some bytes`
models a read of `bytes.length` bytes.  The size_t subtraction computing
bytes_in_last_packet wraps to a huge value when bytes_stored <
seq_offset*buffer_size, in which case the C code performs no clamp; the
model reproduces that. -/
def cbReadSeq (cb : CircBuf) (max_len seq_num : Nat) : Option (List Nat) :=
  if seq_num < cb.start_seq ∨ cb.end_seq ≤ seq_num then none
  else
    let seq_offset := seq_num - cb.start_seq
    let position := (cb.head + seq_offset * cb.buffer_size) % cb.size
    let len := if max_len < cb.buffer_size then max_len else cb.buffer_size
    let len :=
      if seq_num = cb.end_seq - 1 ∧ cb.bytes_stored < (seq_offset + 1) * cb.buffer_size then
        if cb.bytes_stored < seq_offset * cb.buffer_size then len
        else if cb.bytes_stored - seq_offset * cb.buffer_size < len then
          cb.bytes_stored - seq_offset * cb.buffer_size
        else len
      else len
    some (cbSlice cb position len)

/-! ### The SREJ response of the sender (server.c) -/

/-- In-place retransmission header rewrite: set the flag, zero the
checksum, recompute it over the stored PDU bytes. -/
def resendWithFlag (pdu : Pdu) (flag : Nat) : Pdu :=
  let p1 := { pdu with flag := flag }
  { p1 with checksum := freshCksum p1 }

/-- The SREJ branch of process_ack_packets and of the main sender loop in
server.c: look the seq up with window_get_packet; if found, rewrite the
stored PDU header to RESENT_SREJ with a fresh checksum and send it;
otherwise send nothing.  The replay buffer is not consulted.  Returns the
frame sent (if any) and the updated window (the header rewrite mutates the
stored packet in place). -/
def srejResponse (win : Window) (srej_seq : Nat) : Option Pdu × Window :=
  match windowGetPacket win srej_seq with
  | some idx =>
      match (win.slot idx).data with
      | some pdu =>
          let resent := resendWithFlag pdu FLAG_RESENT_SREJ
          (some resent,
            { win with packets := win.packets.set idx ({ win.slot idx with data := some resent }) })
      | none => (none, win)
  | none => (none, win)


/-! ### The receiver engine (rcopy.c, process_file_transfer) -/

/-- One poll outcome of the receiver loop: a timeout, a datagram shorter
than the 7-byte header, or a frame.  `corrupt` is the outcome of the
checksum comparison (adversarial bytes can make it either value). -/
inductive RecvEvent where
  | timeout
  | short
  | frame (corrupt : Bool) (flag seq : Nat) (payload : List Nat)
  deriving Repr, DecidableEq

/-- State of process_file_transfer, with the emitted control frames
(`sends`, as flag/value pairs), the data-frame writes to the output file
(`writes`, frame seq paired with payload) and the EOF-frame payload bytes
(`eofData`) recorded. -/
structure RecvState where
  expected_seq : Nat
  highest_received_seq : Nat
  eof_received : Bool
  consecutive_timeouts : Nat
  finished : Bool
  win : Window
  markStatics : AckStatics
  writes : List (Nat × List Nat)
  eofData : List Nat
  sends : List (Nat × Nat)
  deriving Repr, DecidableEq

/-- The buffered-packet drain loop of the in-order branch: while the
window holds a frame for the new expected seq, write its payload, mark it
acknowledged, emit RR, advance.  Each successful lookup returns a slot
index below window_size holding the current expected seq, and the loop
advances the expected seq, so at most window_size iterations can succeed;
the fuel (window_size + 1 at the call site) is never exhausted and only
makes the recursion structural. -/
def recvDrain (fuel : Nat) (win : Window) (markSt : AckStatics) (expected : Nat)
    (writes : List (Nat × List Nat)) (sends : List (Nat × Nat)) :
    Window × AckStatics × Nat × List (Nat × List Nat) × List (Nat × Nat) :=
  match fuel with
  | 0 => (win, markSt, expected, writes, sends)
  | fuel + 1 =>
      match windowGetPacket win expected with
      | some idx =>
          match (win.slot idx).data with
          | some pdu =>
              let writes := writes ++ [(expected, pdu.payload)]
              let r := windowMarkAck markSt win expected
              let sends := sends ++ [(FLAG_RR, expected)]
              recvDrain fuel r.2 r.1 (expected + 1) writes sends
          | none => (win, markSt, expected, writes, sends)
      | none => (win, markSt, expected, writes, sends)

/-- One iteration of the receiver loop on a poll outcome.  Mirrors
process_file_transfer: checksum failure draws SREJ(expected); data flags
are handled by seq comparison (in-order write + drain, out-of-order
buffering + SREJ, duplicate re-RR); EOF writes its payload, emits the
final RR three times and finishes; the highest-received seq is updated for
every valid frame after the flag dispatch.  Received frames are stored
with a zeroed checksum because the checksum check zeroes the header field
in the receive buffer before the frame is buffered. -/
def receiverStep (st : RecvState) (ev : RecvEvent) : RecvState :=
  match ev with
  | RecvEvent.timeout =>
      if st.eof_received then { st with finished := true }
      else
        let st := { st with sends := st.sends ++ [(FLAG_RR, st.highest_received_seq)] }
        let ct := st.consecutive_timeouts + 1
        if 15 ≤ ct then
          { st with consecutive_timeouts := ct, finished := true,
                    sends := st.sends ++ [(FLAG_SREJ, st.highest_received_seq + 1)] }
        else { st with consecutive_timeouts := ct }
  | RecvEvent.short => st
  | RecvEvent.frame corrupt flag seq payload =>
      if corrupt then { st with sends := st.sends ++ [(FLAG_SREJ, st.expected_seq)] }
      else
        let st :=
          if flag = FLAG_DATA ∨ flag = FLAG_RESENT_SREJ ∨ flag = FLAG_RESENT_TIMEOUT then
            if seq = st.expected_seq then
              let writes := st.writes ++ [(seq, payload)]
              let sends := st.sends ++ [(FLAG_RR, seq)]
              let d := recvDrain (st.win.window_size + 1) st.win st.markStatics
                (st.expected_seq + 1) writes sends
              { st with win := d.1, markStatics := d.2.1, expected_seq := d.2.2.1,
                        writes := d.2.2.2.1, sends := d.2.2.2.2 }
            else if st.expected_seq < seq then
              let win := if st.win.base < st.expected_seq then
                  { st.win with base := st.expected_seq } else st.win
              let stored : Pdu := { seq_num := seq, checksum := 0, flag := flag, payload := payload }
              let win := (windowAddPacket win seq stored (HEADER_SIZE + payload.length) flag).2
              { st with win := win, sends := st.sends ++ [(FLAG_SREJ, st.expected_seq)] }
            else
              if 0 < st.expected_seq then
                { st with sends := st.sends ++ [(FLAG_RR, st.expected_seq - 1)] }
              else st
          else if flag = FLAG_EOF then
            let st := if 0 < payload.length then { st with eofData := st.eofData ++ payload } else st
            let v := if 0 < st.expected_seq then st.expected_seq - 1 else 0
            { st with sends := st.sends ++ [(FLAG_RR, v), (FLAG_RR, v), (FLAG_RR, v)],
                      eof_received := true, finished := true }
          else st
        if st.highest_received_seq < seq then { st with highest_received_seq := seq } else st

/-- Initial receiver state (expected_seq 0, fresh window with base set to
the expected seq, counters zero). -/
def receiverInit (w : Nat) : RecvState :=
  { expected_seq := 0, highest_received_seq := 0, eof_received := false,
    consecutive_timeouts := 0, finished := false, win := windowInit w,
    markStatics := ⟨0, 0⟩, writes := [], eofData := [], sends := [] }

/-- The receiver main loop over a list of poll outcomes (the loop stops
once finished). -/
def receiverRun (w : Nat) (events : List RecvEvent) : RecvState :=
  events.foldl (fun st ev => if st.finished then st else receiverStep st ev) (receiverInit w)

/-- The bytes a receiver run delivers to the sink: the in-order data-frame
payloads followed by any EOF payload. -/
def recvSink (st : RecvState) : List Nat :=
  (st.writes.map Prod.snd).flatten ++ st.eofData


/-- Receiver poll trace refuting the consecutive-timeout claim: fourteen
timeouts, then a delivered in-order data frame, then one more timeout. -/
def c8trace : List RecvEvent :=
  List.replicate 14 RecvEvent.timeout
    ++ [RecvEvent.frame false FLAG_DATA 0 [1], RecvEvent.timeout]

/-- Receiver state one timeout short of the give-up threshold, used as the
witness input for the amended C8 theorem. -/
def c8wst : RecvState := { receiverInit 2 with consecutive_timeouts := 14 }


/-! ### The client handshake retry loop (rcopy.c, send_filename_request) -/

/-- One poll outcome of the handshake loop: a 5000 ms timeout with no
datagram, or a reply of `len` bytes with the checksum verdict, flag, and
payload bytes. -/
inductive FnEvent where
  | timeout
  | reply (len : Nat) (corrupt : Bool) (flag : Nat) (payload : List Nat)
  deriving Repr, DecidableEq

/-- Result of send_filename_request, with the number of FILENAME sends
performed.  `established` models the break with received = 1;
`exhausted` models falling out of the while loop after INIT_RETRY_LIMIT
corrupted replies (the function then returns normally, as if connected);
`failExit` models the exit(1) inside the loop; `notFoundExit` models the
exit(1) on a non-OK response payload. -/
inductive FnResult where
  | established (sends : Nat)
  | exhausted (sends : Nat)
  | failExit (sends : Nat)
  | notFoundExit (sends : Nat)
  deriving Repr, DecidableEq

/-- The bytes of a C string: everything before the first NUL. -/
def cString (bytes : List Nat) : List Nat := bytes.takeWhile (fun b => !(b == 0))

/-- strcmp(response, \"OK\") == 0 on the null-terminated payload. -/
def isOkPayload (payload : List Nat) : Bool := cString payload == [79, 75]

/-- The retry loop of send_filename_request.  A missing event behaves like
a timeout (nothing arrives).  The exit(1) failure check sits inside the
loop after the poll block, so a poll timeout and an unexpected or short
reply all reach it; only a corrupted reply takes the continue path that
actually retries. -/
def fnLoop : Nat → List FnEvent → Nat → FnResult
  | retries, events, sends =>
      if INIT_RETRY_LIMIT ≤ retries then FnResult.exhausted sends
      else
        let sends := sends + 1
        match events with
        | [] => FnResult.failExit sends
        | e :: rest =>
            match e with
            | FnEvent.timeout => FnResult.failExit sends
            | FnEvent.reply len corrupt flag payload =>
                if len < HEADER_SIZE then FnResult.failExit sends
                else if corrupt then fnLoop (retries + 1) rest sends
                else if flag = FLAG_FILENAME_RESP then
                  if HEADER_SIZE < len ∧ isOkPayload payload = false then
                    FnResult.notFoundExit sends
                  else FnResult.established sends
                else FnResult.failExit sends

/-- send_filename_request over a list of poll outcomes. -/
def sendFilenameRequest (events : List FnEvent) : FnResult := fnLoop 0 events 0

/-! ### The server filename response loop (server.c, send_filename_response) -/

/-- One poll outcome of send_filename_response: a 1000 ms timeout, or a
datagram of `len` bytes with the given flag (no checksum check is
performed by this helper). -/
inductive SfrEvent where
  | timeout
  | dgram (len flag : Nat)
  deriving Repr, DecidableEq

/-- The retry loop of send_filename_response, parameterised like the C
helper by break_after and expect_ack.  Returns the number of sends and
whether the client acknowledgment (a FILENAME-flag datagram) was
received.  Receiving a FILENAME datagram with expect_ack = 0 takes the
continue path without incrementing retries; every other outcome
increments retries, and the loop stops early once retries reaches
break_after.  Every iteration consumes an event or increments retries
(bounded by MAX_RETRANSMIT), so the fuel events.length + MAX_RETRANSMIT
supplied at the call site is never exhausted; it only makes the recursion
structural. -/
def sfrLoop (break_after : Nat) (expect_ack : Bool) :
    Nat → Nat → List SfrEvent → Nat → Nat × Bool
  | 0, _, _, sends => (sends, false)
  | fuel + 1, retries, events, sends =>
      if MAX_RETRANSMIT ≤ retries then (sends, false)
      else
        let sends := sends + 1
        match events with
        | [] =>
            if break_after ≤ retries + 1 then (sends, false)
            else sfrLoop break_after expect_ack fuel (retries + 1) [] sends
        | e :: rest =>
            match e with
            | SfrEvent.dgram len flag =>
                if HEADER_SIZE ≤ len ∧ flag = FLAG_FILENAME then
                  if expect_ack then (sends, true)
                  else sfrLoop break_after expect_ack fuel retries rest sends
                else
                  if break_after ≤ retries + 1 then (sends, false)
                  else sfrLoop break_after expect_ack fuel (retries + 1) rest sends
            | SfrEvent.timeout =>
                if break_after ≤ retries + 1 then (sends, false)
                else sfrLoop break_after expect_ack fuel (retries + 1) rest sends

/-- send_filename_response over a list of poll outcomes. -/
def sendFilenameResponse (break_after : Nat) (expect_ack : Bool)
    (events : List SfrEvent) : Nat × Bool :=
  sfrLoop break_after expect_ack (events.length + MAX_RETRANSMIT) 0 events 0

/-! ### The EOF exchange (server.c, send_eof_packet) -/

/-- One poll outcome of the EOF retry loop: a 1000 ms timeout, a datagram
shorter than header+4, a checksum failure, a valid RR or SREJ carrying the
value from its payload, or a valid datagram of any other flag. -/
inductive EofEvent where
  | timeout
  | short
  | corrupt
  | rr (v : Nat)
  | srej (v : Nat)
  | other
  deriving Repr, DecidableEq

/-- Outcome of send_eof_packet with the number of EOF frames sent:
`acked` for a genuine acceptance (an RR with value at least base-1 in
uint32, or any valid RR/SREJ from attempt 4 on), `closedUnilaterally`
for the give-up break after attempt 5, `exhausted` for the while
condition itself failing (unreachable because of the 5-attempt cut). -/
inductive EofOutcome where
  | acked (sends : Nat)
  | closedUnilaterally (sends : Nat)
  | exhausted (sends : Nat)
  deriving Repr, DecidableEq

/-- The frame sent by send_eof_packet: flag EOF, the passed seq, no
payload, checksum over the 7 header bytes. -/
def eofFrame (seq : Nat) : Pdu := mkPdu seq FLAG_EOF []

/-- The retry loop of send_eof_packet.  `base` is win->base at the call
site.  An SREJ before attempt 4 takes the continue path (resending the
EOF without incrementing eof_retries); every non-accepting outcome
increments eof_retries, and after the increment reaches 5 the loop
breaks, treating the transfer as complete.  Every iteration consumes an
event or increments eof_retries (bounded by MAX_RETRANSMIT), so the fuel
supplied at the call site is never exhausted; it only makes the recursion
structural. -/
def eofLoop (base : Nat) : Nat → Nat → List EofEvent → Nat → EofOutcome
  | 0, _, _, sends => EofOutcome.exhausted sends
  | fuel + 1, retries, events, sends =>
      if MAX_RETRANSMIT ≤ retries then EofOutcome.exhausted sends
      else
        let sends := sends + 1
        match events with
        | [] =>
            if 5 ≤ retries + 1 then EofOutcome.closedUnilaterally sends
            else eofLoop base fuel (retries + 1) [] sends
        | e :: rest =>
            match e with
            | EofEvent.rr v =>
                if u32pred base ≤ v ∨ 3 ≤ retries then EofOutcome.acked sends
                else
                  if 5 ≤ retries + 1 then EofOutcome.closedUnilaterally sends
                  else eofLoop base fuel (retries + 1) rest sends
            | EofEvent.srej _ =>
                if 3 ≤ retries then EofOutcome.acked sends
                else eofLoop base fuel retries rest sends
            | _ =>
                if 5 ≤ retries + 1 then EofOutcome.closedUnilaterally sends
                else eofLoop base fuel (retries + 1) rest sends

/-- send_eof_packet over a list of poll outcomes. -/
def sendEofPacket (base : Nat) (events : List EofEvent) : EofOutcome :=
  eofLoop base (events.length + MAX_RETRANSMIT) 0 events 0


/-! ### The sender engine (server.c, send_data_packets and helpers) -/

/-- The static locals last_rr_seq / repeat_rr_count.  process_ack_packets
and the inline RR handling of the sender main loop each have their own
pair. -/
structure RrStatics where
  last_rr_seq : Nat
  repeat_rr_count : Nat
  deriving Repr, DecidableEq

/-- One datagram on the sender's ack socket: too short (under header+4
bytes), checksum failure, an RR or SREJ with the value decoded from its
payload, or a valid datagram of any other flag. -/
inductive AckEvent where
  | short
  | corrupt
  | rr (v : Nat)
  | srej (v : Nat)
  | other (flag : Nat)
  deriving Repr, DecidableEq

/-- The base-packet search of the repeated-RR retransmission: expected
index first, then a scan for a slot holding the base seq with data. -/
def findBaseDataIdx (win : Window) : Option Nat :=
  scanSlots win (win.base % win.window_size)
    (fun pk => pk.seq_num == win.base && pk.data.isSome) (List.range win.window_size)

/-- The repeated-RR retransmission of the base packet: rewrite the stored
header to RESENT_TIMEOUT with a fresh checksum and send it.  Returns the
updated window and the frame sent, if any. -/
def resendBaseUpdate (win : Window) : Window × Option Pdu :=
  match findBaseDataIdx win with
  | some idx =>
      match (win.slot idx).data with
      | some pdu =>
          let r := resendWithFlag pdu FLAG_RESENT_TIMEOUT
          ({ win with packets := win.packets.set idx ({ win.slot idx with data := some r }) },
            some r)
      | none => (win, none)
  | none => (win, none)

/-- Processing of one ack-socket datagram (the RR/SREJ logic shared by
process_ack_packets and the sender main loop; the two call sites differ
only in which RrStatics pair they use).  Returns the statics, the mark_ack
statics, the window, and the frames sent. -/
def processAckDatagram (rrSt : RrStatics) (markSt : AckStatics) (win : Window)
    (ev : AckEvent) : RrStatics × AckStatics × Window × List Pdu :=
  match ev with
  | AckEvent.short => (rrSt, markSt, win, [])
  | AckEvent.corrupt => (rrSt, markSt, win, [])
  | AckEvent.other _ => (rrSt, markSt, win, [])
  | AckEvent.srej s =>
      let r := srejResponse win s
      (rrSt, markSt, r.2, r.1.toList)
  | AckEvent.rr a =>
      let t : RrStatics × Window × List Pdu :=
        if rrSt.last_rr_seq = a ∧ a = u32pred win.base then
          let c := rrSt.repeat_rr_count + 1
          if 3 ≤ c then
            let r := resendBaseUpdate win
            ({ rrSt with repeat_rr_count := 0 }, r.1, r.2.toList)
          else ({ rrSt with repeat_rr_count := c }, win, [])
        else if a ≠ rrSt.last_rr_seq then
          ({ last_rr_seq := a, repeat_rr_count := 1 }, win, [])
        else (rrSt, win, [])
      let r2 := windowMarkAck markSt t.2.1 a
      (t.1, r2.1, windowSlide r2.2, t.2.2)

/-- process_ack_packets: drain every queued datagram. -/
def processAckPackets (rrSt : RrStatics) (markSt : AckStatics) (win : Window) :
    List AckEvent → RrStatics × AckStatics × Window × List Pdu
  | [] => (rrSt, markSt, win, [])
  | e :: rest =>
      let r := processAckDatagram rrSt markSt win e
      let r2 := processAckPackets r.1 r.2.1 r.2.2.1 rest
      (r2.1, r2.2.1, r2.2.2.1, r.2.2.2 ++ r2.2.2.2)

/-- State of one send_data_packets session.  `seqNum` is the local
seq_num counter (the next seq to assign), `file` the bytes not yet read
from the source, `sent` the transcript of frames transmitted. -/
structure SenderState where
  win : Window
  seqNum : Nat
  eofReached : Bool
  active : Bool
  cb : CircBuf
  timeoutCounter : Nat
  lastBase : Nat
  file : List Nat
  markStatics : AckStatics
  ackStatics : RrStatics
  loopStatics : RrStatics
  sent : List Pdu
  deriving Repr, DecidableEq

/-- The alternate-packet search of handle_timeout: walk seqs base+i while
below seq_num (the C loop breaks at the first check_seq ≥ seq_num, and
base+i is increasing, so skipping rather than stopping is equivalent),
looking for an unacknowledged data slot holding that seq at its expected
index. -/
def findTimeoutAlt (win : Window) (seqNum : Nat) : List Nat → Option Nat
  | [] => none
  | i :: rest =>
      let check_seq := win.base + i
      if seqNum ≤ check_seq then none
      else
        let ci := check_seq % win.window_size
        if (win.slot ci).seq_num == check_seq && (win.slot ci).data.isSome
            && !(win.slot ci).acknowledged then some ci
        else findTimeoutAlt win seqNum rest

/-- The found-packet path of handle_timeout: rewrite the stored header to
RESENT_TIMEOUT with a fresh checksum, send, bump retransmit_count; at
MAX_RETRANSMIT force-acknowledge the packet and slide, ending the
transfer if the file is done and the base has caught up. -/
def resendTimeoutPath (st : SenderState) (i : Nat) : SenderState :=
  match (st.win.slot i).data with
  | some pdu =>
      let r := resendWithFlag pdu FLAG_RESENT_TIMEOUT
      let p0 := st.win.slot i
      let p1 := { p0 with data := some r, retransmit_count := p0.retransmit_count + 1 }
      let win1 := { st.win with packets := st.win.packets.set i p1 }
      let st := { st with win := win1, sent := st.sent ++ [r] }
      if MAX_RETRANSMIT ≤ p1.retransmit_count then
        let p2 := { p1 with acknowledged := true }
        let win2 := windowSlide { win1 with packets := win1.packets.set i p2 }
        let st : SenderState := { st with win := win2 }
        if st.eofReached = true ∧ st.seqNum ≤ win2.base then { st with active := false } else st
      else st
  | none => st

/-- The not-found path of handle_timeout after a failed replay-buffer
read: after more than 10 consecutive timeouts, force-acknowledge the base
slot and slide. -/
def forceSlidePath (st : SenderState) : SenderState :=
  if 10 < st.timeoutCounter then
    let idx := st.win.base % st.win.window_size
    let pk := { st.win.slot idx with acknowledged := true }
    let win1 := { st.win with packets := st.win.packets.set idx pk }
    let win2 := windowSlide win1
    let st : SenderState := { st with win := win2 }
    if st.eofReached = true ∧ st.seqNum ≤ win2.base then { st with active := false } else st
  else st

/-- handle_timeout of server.c.  `b` is the negotiated buffer_size used
for the replay-buffer read. -/
def handleTimeout (b : Nat) (st : SenderState) : SenderState :=
  let win := st.win
  let idx := win.base % win.window_size
  if (win.slot idx).seq_num == win.base && (win.slot idx).data.isSome then
    resendTimeoutPath st idx
  else
    match findTimeoutAlt win st.seqNum (List.range win.window_size) with
    | some ci => resendTimeoutPath st ci
    | none =>
        match cbReadSeq st.cb b win.base with
        | some bytesRead =>
            if 0 < bytesRead.length then
              let pdu := mkPdu win.base FLAG_RESENT_TIMEOUT bytesRead
              let win1 := (windowAddPacket win win.base pdu (pduLen pdu) FLAG_RESENT_TIMEOUT).2
              { st with win := win1, sent := st.sent ++ [pdu] }
            else forceSlidePath st
        | none => forceSlidePath st

/-- The window-fill loop of send_data_packets: while the window has room
and the source is not exhausted, read up to b bytes, store them in the
replay buffer, build and send a DATA frame, store it in the window,
drain pending acks, and advance seq_num.  Each iteration consumes at
least one byte of the remaining file, so fuel file.length + 1 is never
exhausted; the fuel only makes the recursion structural.  The uint32
subtraction seq_num - base agrees with the natural one under the session
invariant base ≤ seq_num. -/
def senderFillLoop (b w : Nat) : Nat → SenderState → List (List AckEvent) → SenderState
  | 0, st, _ => st
  | fuel + 1, st, ackLists =>
      if st.seqNum - st.win.base < w ∧ st.eofReached = false then
        let bytes := st.file.take b
        if bytes.length = 0 then { st with eofReached := true }
        else
          let cb1 := (cbWrite st.cb bytes bytes.length st.seqNum).2
          let pdu := mkPdu st.seqNum FLAG_DATA bytes
          let win1 := (windowAddPacket st.win st.seqNum pdu (pduLen pdu) FLAG_DATA).2
          let st1 := { st with cb := cb1, win := win1, sent := st.sent ++ [pdu], file := st.file.drop b }
          let r := processAckPackets st1.ackStatics st1.markStatics st1.win (ackLists.headD [])
          let st2 := { st1 with ackStatics := r.1, markStatics := r.2.1, win := r.2.2.1, sent := st1.sent ++ r.2.2.2, seqNum := st1.seqNum + 1 }
          senderFillLoop b w fuel st2 ackLists.tail
      else st

/-- The environment of one main-loop iteration: the ack datagrams drained
by each fill-iteration's process_ack_packets call, and the poll outcome
of the wait phase (none models a poll timeout). -/
structure StepEvent where
  fillAcks : List (List AckEvent)
  poll : Option AckEvent
  deriving Repr, DecidableEq

/-- One iteration of the send_data_packets main loop. -/
def senderStep (b w : Nat) (st : SenderState) (ev : StepEvent) : SenderState :=
  if st.active = false then st
  else
    let st := senderFillLoop b w (st.file.length + 1) st ev.fillAcks
    if st.eofReached = true ∧ st.win.base = st.seqNum then { st with active := false }
    else
      let windowFull := st.seqNum - st.win.base = w
      let t : Nat × Nat × Bool :=
        if windowFull then
          if st.win.base = st.lastBase then
            (st.timeoutCounter + 1, st.lastBase, 3 ≤ st.timeoutCounter + 1)
          else (0, st.win.base, false)
        else (st.timeoutCounter, st.lastBase, false)
      let st := { st with timeoutCounter := t.1, lastBase := t.2.1 }
      let st :=
        if t.2.2 = false then
          match ev.poll with
          | some e =>
              let st := { st with timeoutCounter := 0 }
              let r := processAckDatagram st.loopStatics st.markStatics st.win e
              { st with loopStatics := r.1, markStatics := r.2.1, win := r.2.2.1, sent := st.sent ++ r.2.2.2 }
          | none => if windowFull then handleTimeout b st else st
        else handleTimeout b st
      if st.eofReached = true ∧ st.seqNum ≤ st.win.base then { st with active := false } else st

/-- Initial session state of send_data_packets (replay buffer of
2*window_size*buffer_size bytes, all counters zero). -/
def senderInit (b w : Nat) (file : List Nat) : SenderState :=
  { win := windowInit w, seqNum := 0, eofReached := false, active := true,
    cb := cbInit (2 * w * b) b, timeoutCounter := 0, lastBase := 0, file := file,
    markStatics := ⟨0, 0⟩, ackStatics := ⟨0, 0⟩, loopStatics := ⟨0, 0⟩, sent := [] }

/-- A sender session over a list of main-loop environments. -/
def senderRun (b w : Nat) (file : List Nat) (events : List StepEvent) : SenderState :=
  events.foldl (senderStep b w) (senderInit b w file)


/-- Structural invariant of a sender-session window, relative to the
number N of data seqs created so far (the session's seq_num counter):
sizes agree, the base never passes the next seq, every slot carries
either a created seq below N or the cleared seq 0, at base 0 with at
least one packet created slot 0 still holds packet 0 with its data, and
at base 0 nothing is acknowledged yet. -/
def WInv (w N : Nat) (win : Window) : Prop :=
  win.window_size = w ∧
  win.packets.length = w ∧
  win.base ≤ N ∧
  (∀ i < w, (win.slot i).seq_num ≠ 0 → (win.slot i).seq_num < N) ∧
  (win.base = 0 → 1 ≤ N → (win.slot 0).seq_num = 0 ∧ (win.slot 0).data.isSome = true) ∧
  (win.base = 0 → ∀ i < w, (win.slot i).acknowledged = false)

/-- The sender-session invariant: the window invariant at N = seq_num,
plus the upper window bound on seq_num. -/
def SInv (w : Nat) (st : SenderState) : Prop :=
  WInv w st.seqNum st.win ∧ st.seqNum ≤ st.win.base + w


/-! ### The composed lossless transfer (C1 round trip) -/

/-- Split a byte list into the successive fread chunks of the fill loop
(up to b bytes each; fread returns 0 only at end of file).  The fuel is
the list length at the call site; each step consumes at least one byte
when b is at least 1, so it is never exhausted. -/
def chunksOf (b : Nat) : Nat → List Nat → List (List Nat)
  | 0, _ => []
  | _, [] => []
  | fuel + 1, l => l.take b :: chunksOf b fuel (l.drop b)

/-- The chunk sequence a fill loop reads from byte list l. -/
def chunks (b : Nat) (l : List Nat) : List (List Nat) := chunksOf b l.length l

/-- The DATA frames the fill loop builds for a chunk sequence starting at
seq k. -/
def dataPdus (k : Nat) : List (List Nat) → List Pdu
  | [] => []
  | c :: rest => mkPdu k FLAG_DATA c :: dataPdus (k + 1) rest

/-- A sender window whose packets have all been acknowledged and slid
past: every slot cleared, base at k. -/
def cleanWin (w k : Nat) : Window :=
  { packets := List.replicate w Packet.cleared, window_size := w,
    base := k, next_seq := 0 }

/-- Decode a receiver response (flag, value) as a sender ack event; the
receiver only ever sends RR and SREJ frames, and error rate 0 delivers
them intact. -/
def ackOfSend (s : Nat × Nat) : AckEvent :=
  if s.1 == FLAG_RR then AckEvent.rr s.2 else AckEvent.srej s.2

/-- Decode a receiver response for the EOF wait loop. -/
def eofEvOfSend (s : Nat × Nat) : EofEvent :=
  if s.1 == FLAG_RR then EofEvent.rr s.2 else EofEvent.srej s.2

/-- Outcome of a composed transfer: the frames the sender emitted during
the data phase, the final receiver state (after the EOF frame), the
sender's final window base, and the EOF exchange outcome. -/
structure ComposedResult where
  dataFrames : List Pdu
  receiver : RecvState
  base : Nat
  eof : EofOutcome
  deriving Repr, DecidableEq

/-- Data phase of the lossless synchronous schedule: each fill-loop
iteration stores and sends one chunk (window_add_packet), the frame is
delivered at once (receiver step on an intact DATA frame), and the
responses it provokes are drained by the same iteration's
process_ack_packets call. -/
def composedData (w : Nat) :
    List (List Nat) → Window → Nat → RrStatics → AckStatics → RecvState → List Pdu →
    Window × Nat × RrStatics × AckStatics × RecvState × List Pdu
  | [], win, k, rrSt, markSt, rst, sent => (win, k, rrSt, markSt, rst, sent)
  | c :: rest, win, k, rrSt, markSt, rst, sent =>
      let pdu := mkPdu k FLAG_DATA c
      let win1 := (windowAddPacket win k pdu (pduLen pdu) FLAG_DATA).2
      let rst1 := receiverStep rst (RecvEvent.frame false FLAG_DATA k c)
      let acks := (rst1.sends.drop rst.sends.length).map ackOfSend
      let r := processAckPackets rrSt markSt win1 acks
      composedData w rest r.2.2.1 (k + 1) r.1 r.2.1 rst1 (sent ++ [pdu] ++ r.2.2.2)

/-- A complete transfer of byte list B at error rate 0 under the
synchronous schedule: run the data phase over the fread chunks, deliver
the EOF frame, and run send_eof_packet against the receiver's closing
responses followed by silence. -/
def composedRun (w b : Nat) (B : List Nat) : ComposedResult :=
  let d := composedData w (chunks b B) (windowInit w) 0 ⟨0, 0⟩ ⟨0, 0⟩
    (receiverInit w) []
  let rstE := receiverStep d.2.2.2.2.1 (RecvEvent.frame false FLAG_EOF d.2.1 [])
  let eevs := (rstE.sends.drop d.2.2.2.2.1.sends.length).map eofEvOfSend
    ++ List.replicate 10 EofEvent.timeout
  { dataFrames := d.2.2.2.2.2, receiver := rstE, base := d.1.base,
    eof := sendEofPacket d.1.base eevs }

/-! ### Basic lemmas about the slot scan -/

theorem scanSlots_eq_some {win : Window} {start : Nat} {p : Packet → Bool}
    {l : List Nat} {j : Nat} (hw : 0 < win.window_size)
    (h : scanSlots win start p l = some j) :
    j < win.window_size ∧ p (win.slot j) = true := by
  induction l with
  | nil => simp [scanSlots] at h
  | cons a rest ih =>
      rw [scanSlots] at h
      by_cases hp : p (win.slot ((start + a) % win.window_size)) = true
      · rw [if_pos hp] at h
        cases h
        exact ⟨Nat.mod_lt _ hw, hp⟩
      · rw [if_neg hp] at h
        exact ih h

theorem scanSlots_eq_none {win : Window} {start : Nat} {p : Packet → Bool}
    {l : List Nat} (h : scanSlots win start p l = none) :
    ∀ j ∈ l, p (win.slot ((start + j) % win.window_size)) = false := by
  induction l with
  | nil => intro j hj; cases hj
  | cons a rest ih =>
      rw [scanSlots] at h
      by_cases hp : p (win.slot ((start + a) % win.window_size)) = true
      · rw [if_pos hp] at h; cases h
      · rw [if_neg hp] at h
        intro j hj
        rcases List.mem_cons.mp hj with rfl | hj
        · exact Bool.eq_false_iff.mpr hp
        · exact ih h j hj

theorem add_offset_mod {w s i : Nat} (hs : s < w) (hi : i < w) :
    (s + (i + w - s) % w) % w = i := by
  have h0 : 0 < w := Nat.lt_of_le_of_lt (Nat.zero_le _) hi
  have h1 : (s + (i + w - s) % w) % w = (s + (i + w - s)) % w := by
    conv_lhs => rw [Nat.add_mod]
    conv_rhs => rw [Nat.add_mod]
    rw [Nat.mod_mod_of_dvd]
    exact dvd_refl w
  have h2 : s + (i + w - s) = i + w := by omega
  rw [h1, h2, Nat.add_mod_right, Nat.mod_eq_of_lt hi]

/-- If a whole-window scan comes back empty, no slot satisfies the
predicate. -/
theorem scanSlots_none_all {win : Window} {start : Nat} {p : Packet → Bool}
    (hw : 0 < win.window_size)
    (h : scanSlots win start p (List.range win.window_size) = none) :
    ∀ i < win.window_size, p (win.slot i) = false := by
  intro i hi
  have hs : start % win.window_size < win.window_size := Nat.mod_lt _ hw
  have hj : (i + win.window_size - start % win.window_size) % win.window_size
      ∈ List.range win.window_size := List.mem_range.mpr (Nat.mod_lt _ hw)
  have := scanSlots_eq_none h _ hj
  have harith :
      (start + (i + win.window_size - start % win.window_size) % win.window_size)
        % win.window_size = i := by
    have h1 := @add_offset_mod win.window_size (start % win.window_size) i hs hi
    calc (start + (i + win.window_size - start % win.window_size) % win.window_size)
          % win.window_size
        = (start % win.window_size
            + (i + win.window_size - start % win.window_size) % win.window_size
              % win.window_size) % win.window_size := by rw [Nat.add_mod]
      _ = (start % win.window_size
            + (i + win.window_size - start % win.window_size) % win.window_size)
              % win.window_size := by rw [Nat.mod_mod_of_dvd _ (dvd_refl _)]
      _ = i := h1
  rwa [harith] at this

/-- A slot satisfying the predicate makes the whole-window scan succeed. -/
theorem scanSlots_isSome {win : Window} {start : Nat} {p : Packet → Bool}
    (hw : 0 < win.window_size) {i : Nat} (hi : i < win.window_size)
    (hp : p (win.slot i) = true) :
    (scanSlots win start p (List.range win.window_size)).isSome := by
  cases hsc : scanSlots win start p (List.range win.window_size) with
  | some j => rfl
  | none =>
      have := scanSlots_none_all hw hsc i hi
      rw [hp] at this
      cases this

/-- The slot record window_add_packet writes for a stored packet. -/
def storedPacket (seq_num : Nat) (d : Pdu) (len flag : Nat) : Packet :=
  { seq_num := seq_num, len := len, flag := flag, data := some d,
    acknowledged := false, retransmit_count := 0 }

/-! ### C10: window_add_packet far-ahead rejection and in-range storage -/

/-- C10.  For every well-formed window, window_add_packet returns -2 and
leaves every slot unchanged when `seq_num > base + 2*window_size`;
otherwise it stores the packet in some slot `i < window_size` and
returns that index. -/
theorem C10_windowAddPacket_spec (win : Window) (seq_num : Nat) (d : Pdu)
    (len flag : Nat) (hw : 1 ≤ win.window_size) :
    (win.base + 2 * win.window_size < seq_num →
        windowAddPacket win seq_num d len flag = (-2, win)) ∧
    (seq_num ≤ win.base + 2 * win.window_size →
        ∃ i, i < win.window_size ∧
          windowAddPacket win seq_num d len flag =
            (Int.ofNat i,
              { win with packets := win.packets.set i (storedPacket seq_num d len flag) })) := by
  constructor
  · intro hfar
    rw [windowAddPacket, if_pos hfar]
  · intro hnear
    rw [windowAddPacket, if_neg (by omega)]
    by_cases hconf : (win.slot (seq_num % win.window_size)).data ≠ none ∧
        (win.slot (seq_num % win.window_size)).seq_num ≠ seq_num
    · rw [if_pos hconf]
      by_cases hinw : win.base ≤ seq_num ∧ seq_num < win.base + win.window_size
      · rw [if_pos hinw]
        refine ⟨findAltSlot win (seq_num % win.window_size), ?_, rfl⟩
        rw [findAltSlot]
        cases hsc : scanSlots win (seq_num % win.window_size)
            (fun pk => pk.data.isNone || pk.acknowledged)
            (List.range win.window_size) with
        | some alt => exact (scanSlots_eq_some hw hsc).1
        | none => exact Nat.mod_lt _ hw
      · rw [if_neg hinw]
        exact ⟨seq_num % win.window_size, Nat.mod_lt _ hw, rfl⟩
    · rw [if_neg hconf]
      exact ⟨seq_num % win.window_size, Nat.mod_lt _ hw, rfl⟩

/-- Witness for C10 at a concrete window: a far-ahead packet is rejected
with every slot unchanged, and an in-range packet is stored. -/
theorem C10_witness :
    windowAddPacket (windowInit 2) 5 (mkPdu 5 FLAG_DATA [1]) 8 FLAG_DATA
        = (-2, windowInit 2) ∧
    ∃ i, i < 2 ∧
      windowAddPacket (windowInit 2) 1 (mkPdu 1 FLAG_DATA [1]) 8 FLAG_DATA =
        (Int.ofNat i,
          { windowInit 2 with packets :=
              (windowInit 2).packets.set i (storedPacket 1 (mkPdu 1 FLAG_DATA [1]) 8 FLAG_DATA) }) := by
  constructor
  · exact (C10_windowAddPacket_spec (windowInit 2) 5 (mkPdu 5 FLAG_DATA [1]) 8 FLAG_DATA
      (by decide)).1 (by decide)
  · exact (C10_windowAddPacket_spec (windowInit 2) 1 (mkPdu 1 FLAG_DATA [1]) 8 FLAG_DATA
      (by decide)).2 (by decide)


/-! ### Generic list and slot helpers -/

theorem map_eq_self_of {α : Type} {l : List α} {f : α → α}
    (h : ∀ x ∈ l, f x = x) : l.map f = l := by
  induction l with
  | nil => rfl
  | cons a t ih =>
      simp only [List.map_cons, h a (List.mem_cons_self a t),
        ih (fun x hx => h x (List.mem_cons_of_mem a hx))]

theorem set_self {α : Type} {l : List α} {i : Nat}
    (hi : i < l.length) : l.set i l[i] = l := by
  apply List.ext_getElem (by simp)
  intro n h1 h2
  rw [List.getElem_set]
  split
  · next h => subst h; rfl
  · rfl

theorem slot_eq_getElem {win : Window} {i : Nat} (hi : i < win.packets.length) :
    win.slot i = win.packets[i] := by
  rw [Window.slot, List.getD_eq_getElem?_getD, List.getElem?_eq_getElem hi]
  rfl

theorem slot_of_le_length {win : Window} {i : Nat} (hi : win.packets.length ≤ i) :
    win.slot i = Packet.cleared := by
  rw [Window.slot, List.getD_eq_getElem?_getD, List.getElem?_eq_none hi]
  rfl

/-- A scan comes back empty when the predicate fails on every reachable
slot. -/
theorem scanSlots_eq_none_of {win : Window} {start : Nat} {p : Packet → Bool}
    {l : List Nat}
    (h : ∀ j ∈ l, p (win.slot ((start + j) % win.window_size)) = false) :
    scanSlots win start p l = none := by
  induction l with
  | nil => rfl
  | cons a rest ih =>
      rw [scanSlots]
      rw [if_neg (by rw [h a (List.mem_cons_self a rest)]; exact Bool.false_ne_true)]
      exact ih (fun j hj => h j (List.mem_cons_of_mem a hj))

/-- A predicate failing on every slot makes the whole-window scan fail
(covers the w = 0 window as well, where the scan list is empty). -/
theorem scanSlots_eq_none_all {win : Window} {start : Nat} {p : Packet → Bool}
    (h : ∀ i, p (win.slot i) = false) :
    scanSlots win start p (List.range win.window_size) = none :=
  scanSlots_eq_none_of (fun _ _ => h _)


/-! ### Lemmas about the acknowledgement-marking loop -/

theorem markLoopBody_window_size (win : Window) (s : Nat) :
    (markLoopBody win s).window_size = win.window_size := by
  rw [markLoopBody]
  cases scanSlots win (s % win.window_size) (fun pk => pk.seq_num == s)
      (List.range win.window_size) <;> rfl

theorem markLoopBody_base (win : Window) (s : Nat) :
    (markLoopBody win s).base = win.base := by
  rw [markLoopBody]
  cases scanSlots win (s % win.window_size) (fun pk => pk.seq_num == s)
      (List.range win.window_size) <;> rfl

/-- If no slot carries a listed sequence number, the marking loop is the
identity. -/
theorem markSeqs_eq_of_no_match {win : Window} {L : List Nat}
    (h : ∀ s ∈ L, ∀ i, (win.slot i).seq_num ≠ s) :
    markSeqs win L = win := by
  induction L with
  | nil => rfl
  | cons s rest ih =>
      rw [markSeqs]
      have hbody : markLoopBody win s = win := by
        rw [markLoopBody, scanSlots_eq_none_all]
        intro i
        exact beq_eq_false_iff_ne.mpr (h s (List.mem_cons_self s rest) i)
      rw [hbody]
      exact ih (fun x hx => h x (List.mem_cons_of_mem s hx))


/-- Distinct slot sequence numbers let marking be described pointwise. -/
theorem seq_inj_of_nodup {win : Window}
    (hnd : (win.packets.map Packet.seq_num).Nodup) {i j : Nat}
    (hi : i < win.packets.length) (hj : j < win.packets.length)
    (h : (win.packets[i]).seq_num = (win.packets[j]).seq_num) : i = j := by
  have hi' : i < (win.packets.map Packet.seq_num).length := by simpa using hi
  have hj' : j < (win.packets.map Packet.seq_num).length := by simpa using hj
  have : (win.packets.map Packet.seq_num)[i] = (win.packets.map Packet.seq_num)[j] := by
    rw [List.getElem_map, List.getElem_map]; exact h
  exact (List.Nodup.getElem_inj_iff hnd).mp this


/-- Pointwise description of a single marking step when slot sequence
numbers are distinct. -/
theorem markLoopBody_eq_map {win : Window} {s : Nat}
    (hlen : win.packets.length = win.window_size)
    (hw : 1 ≤ win.window_size)
    (hnd : (win.packets.map Packet.seq_num).Nodup) :
    markLoopBody win s = { win with packets := win.packets.map (ackMarked s) } := by
  rw [markLoopBody]
  cases hsc : scanSlots win (s % win.window_size) (fun pk => pk.seq_num == s)
      (List.range win.window_size) with
  | none =>
      have hall := scanSlots_none_all (Nat.lt_of_lt_of_le Nat.zero_lt_one hw) hsc
      have hmap : win.packets.map (ackMarked s) = win.packets := by
        apply map_eq_self_of
        intro p hp
        obtain ⟨i, hi, rfl⟩ := List.mem_iff_getElem.mp hp
        have := hall i (by omega)
        rw [slot_eq_getElem hi] at this
        rw [ackMarked, if_neg (by simpa using this)]
      rw [hmap]
  | some j =>
      obtain ⟨hjw, hpj⟩ := scanSlots_eq_some (Nat.lt_of_lt_of_le Nat.zero_lt_one hw) hsc
      have hjlen : j < win.packets.length := by omega
      rw [slot_eq_getElem hjlen] at hpj
      have hseqj : (win.packets[j]).seq_num = s := by simpa using hpj
      dsimp only
      rw [slot_eq_getElem hjlen]
      congr 1
      apply List.ext_getElem (by simp)
      intro n h1 h2
      rw [List.getElem_set, List.getElem_map]
      by_cases hnj : j = n
      · subst hnj
        rw [if_pos rfl, ackMarked, if_pos hseqj]
      · rw [if_neg hnj]
        have hnlen : n < win.packets.length := by simpa using h1
        rw [ackMarked, if_neg (fun hc => hnj (seq_inj_of_nodup hnd hjlen hnlen (by rw [hseqj, hc])))]


theorem ackMarked_seq_num (s : Nat) (p : Packet) :
    (ackMarked s p).seq_num = p.seq_num := by
  rw [ackMarked]; split <;> rfl

theorem ackMarkedIn_ackMarked (s : Nat) (L : List Nat) (p : Packet) :
    ackMarkedIn L (ackMarked s p) = ackMarkedIn (s :: L) p := by
  rw [ackMarked]
  by_cases h : p.seq_num = s
  · rw [if_pos h, ackMarkedIn, ackMarkedIn]
    have hm : p.seq_num ∈ s :: L := by rw [h]; exact List.mem_cons_self s L
    rw [if_pos hm]
    split <;> rfl
  · rw [if_neg h, ackMarkedIn, ackMarkedIn]
    by_cases hL : p.seq_num ∈ L
    · rw [if_pos hL, if_pos (List.mem_cons_of_mem s hL)]
    · rw [if_neg hL, if_neg (fun hc => (List.mem_cons.mp hc).elim h hL)]

/-- Pointwise description of the whole marking loop when slot sequence
numbers are distinct. -/
theorem markSeqs_eq_map {L : List Nat} : ∀ {win : Window},
    win.packets.length = win.window_size →
    1 ≤ win.window_size →
    (win.packets.map Packet.seq_num).Nodup →
    markSeqs win L = { win with packets := win.packets.map (ackMarkedIn L) } := by
  induction L with
  | nil =>
      intro win hlen hw hnd
      rw [markSeqs]
      have hmap : win.packets.map (ackMarkedIn []) = win.packets :=
        map_eq_self_of (fun p _ => by rw [ackMarkedIn, if_neg (List.not_mem_nil _)])
      rw [hmap]
  | cons s rest ih =>
      intro win hlen hw hnd
      rw [markSeqs, markLoopBody_eq_map hlen hw hnd]
      have hseqmap : ((win.packets.map (ackMarked s)).map Packet.seq_num)
          = win.packets.map Packet.seq_num := by
        rw [List.map_map]
        exact List.map_congr_left (fun p _ => ackMarked_seq_num s p)
      rw [@ih ({ win with packets := win.packets.map (ackMarked s) })
        (by simpa using hlen) hw (by show ((win.packets.map (ackMarked s)).map Packet.seq_num).Nodup; rw [hseqmap]; exact hnd)]
      have : (win.packets.map (ackMarked s)).map (ackMarkedIn rest)
          = win.packets.map (ackMarkedIn (s :: rest)) := by
        rw [List.map_map]
        exact List.map_congr_left (fun p _ => ackMarkedIn_ackMarked s rest p)
      rw [this]

/-! ### Lemmas about window_slide -/

theorem slideLoop_eq_of_unacked {win : Window}
    (h : ∀ p ∈ win.packets, p.acknowledged = false) (fuel : Nat) :
    windowSlideLoop win fuel = win := by
  cases fuel with
  | zero => rfl
  | succ f =>
      rw [windowSlideLoop]
      have hnone : scanSlots win (win.base % win.window_size)
          (fun pk => pk.seq_num == win.base && pk.acknowledged)
          (List.range win.window_size) = none := by
        apply scanSlots_eq_none_all
        intro i
        by_cases hi : i < win.packets.length
        · rw [slot_eq_getElem hi, h _ (List.getElem_mem hi), Bool.and_false]
        · rw [slot_of_le_length (Nat.le_of_not_lt hi)]
          rw [show Packet.cleared.acknowledged = false from rfl, Bool.and_false]
      rw [hnone]

theorem windowSlide_eq_of_unacked {win : Window}
    (h : ∀ p ∈ win.packets, p.acknowledged = false) :
    windowSlide win = win :=
  slideLoop_eq_of_unacked h win.window_size


/-- Exact description of window_slide when the acknowledged packets are
precisely one per sequence number in `[base, base+m)`: the base advances by
`m` and the acknowledged slots are cleared. -/
theorem slideLoop_exact (m : Nat) : ∀ (win : Window) (fuel : Nat),
    win.packets.length = win.window_size →
    m ≤ fuel →
    (∀ p ∈ win.packets, p.acknowledged = true →
        win.base ≤ p.seq_num ∧ p.seq_num < win.base + m) →
    (∀ k, k < m → ∃ i, ∃ hi : i < win.packets.length,
        (win.packets[i]).seq_num = win.base + k ∧ (win.packets[i]).acknowledged = true) →
    (∀ i j (hi : i < win.packets.length) (hj : j < win.packets.length),
        (win.packets[i]).acknowledged = true → (win.packets[j]).acknowledged = true →
        (win.packets[i]).seq_num = (win.packets[j]).seq_num → i = j) →
    windowSlideLoop win fuel =
      { win with base := win.base + m, packets := win.packets.map clearAcked } := by
  induction m with
  | zero =>
      intro win fuel hlen hf hrange hpres hinj
      have hunack : ∀ p ∈ win.packets, p.acknowledged = false := by
        intro p hp
        by_cases ha : p.acknowledged = true
        · have := hrange p hp ha
          omega
        · exact Bool.eq_false_iff.mpr ha
      rw [slideLoop_eq_of_unacked hunack]
      have hmap : win.packets.map clearAcked = win.packets :=
        map_eq_self_of (fun p hp => by rw [clearAcked, if_neg (by rw [hunack p hp]; exact Bool.false_ne_true)])
      rw [hmap, Nat.add_zero]
  | succ m ih =>
      intro win fuel hlen hf hrange hpres hinj
      cases fuel with
      | zero => omega
      | succ f =>
          obtain ⟨i0, hi0, hseq0, hack0⟩ := hpres 0 (Nat.succ_pos m)
          have hw : 0 < win.window_size := by omega
          rw [windowSlideLoop]
          have hpi0 : ((win.slot i0).seq_num == win.base && (win.slot i0).acknowledged) = true := by
            rw [slot_eq_getElem hi0, hack0, Bool.and_true, Nat.add_zero] at *
            exact beq_iff_eq.mpr hseq0
          have hsome := @scanSlots_isSome win (win.base % win.window_size)
            (fun pk => pk.seq_num == win.base && pk.acknowledged) hw i0
            (by omega : i0 < win.window_size) hpi0
          cases hsc : scanSlots win (win.base % win.window_size)
              (fun pk => pk.seq_num == win.base && pk.acknowledged)
              (List.range win.window_size) with
          | none => rw [hsc] at hsome; cases hsome
          | some j =>
              obtain ⟨hjw, hpj⟩ := scanSlots_eq_some hw hsc
              have hjlen : j < win.packets.length := by omega
              rw [slot_eq_getElem hjlen] at hpj
              have hseqj : (win.packets[j]).seq_num = win.base := by
                have := Bool.and_elim_left hpj
                exact beq_iff_eq.mp this
              have hackj : (win.packets[j]).acknowledged = true := Bool.and_elim_right hpj
              have hstep := @ih { win with packets := win.packets.set j Packet.cleared, base := win.base + 1 } f
              dsimp only
              have hgoal := hstep (by simpa using hlen) (by omega) ?hr ?hp ?hi
              case hr =>
                intro p hp hackp
                obtain ⟨n, hn, hpn⟩ := List.mem_iff_getElem.mp hp
                have hn' : n < win.packets.length := by simpa using hn
                rw [List.getElem_set] at hpn
                by_cases hjn : j = n
                · rw [if_pos hjn] at hpn
                  rw [← hpn] at hackp
                  cases hackp
                · rw [if_neg hjn] at hpn
                  subst hpn
                  have hr := hrange _ (List.getElem_mem hn') hackp
                  have hne : (win.packets[n]).seq_num ≠ win.base := by
                    intro hc
                    exact hjn (hinj j n hjlen hn' hackj hackp (by rw [hseqj, hc]))
                  simp only []
                  omega
              case hp =>
                intro k hk
                obtain ⟨i2, hi2, hseq2, hack2⟩ := hpres (k + 1) (by omega)
                have hne : i2 ≠ j := by
                  intro hc
                  subst hc
                  rw [hseqj] at hseq2
                  omega
                refine ⟨i2, by simpa using hi2, ?_, ?_⟩
                · rw [List.getElem_set, if_neg (fun hc => hne hc.symm)]
                  simp only []
                  omega
                · rw [List.getElem_set, if_neg (fun hc => hne hc.symm)]
                  exact hack2
              case hi =>
                intro i2 j2 hi2 hj2 ha2 hb2 hs2
                have hi2' : i2 < win.packets.length := by simpa using hi2
                have hj2' : j2 < win.packets.length := by simpa using hj2
                rw [List.getElem_set] at ha2 hs2
                rw [List.getElem_set] at hb2 hs2
                by_cases hc1 : j = i2
                · rw [if_pos hc1] at ha2; cases ha2
                · by_cases hc2 : j = j2
                  · rw [if_pos hc2] at hb2; cases hb2
                  · rw [if_neg hc1] at ha2 hs2
                    rw [if_neg hc2] at hb2 hs2
                    exact hinj i2 j2 hi2' hj2' ha2 hb2 hs2
              rw [hgoal]
              have hbase : win.base + 1 + m = win.base + (m + 1) := by omega
              have hpk : (win.packets.set j Packet.cleared).map clearAcked
                  = win.packets.map clearAcked := by
                apply List.ext_getElem (by simp)
                intro n h1 h2
                rw [List.getElem_map, List.getElem_map, List.getElem_set]
                by_cases hjn : j = n
                · rw [if_pos hjn]
                  subst hjn
                  rw [clearAcked, if_neg (by rw [show Packet.cleared.acknowledged = false from rfl]; exact Bool.false_ne_true)]
                  rw [clearAcked, if_pos hackj]
                · rw [if_neg hjn]
              rw [hbase, hpk]


/-- Pigeonhole: a window with distinct slot seqs all inside
`[base, base+window_size)` carries every seq of that interval. -/
theorem seq_present {win : Window}
    (hlen : win.packets.length = win.window_size)
    (hnd : (win.packets.map Packet.seq_num).Nodup)
    (hrange : ∀ p ∈ win.packets,
        win.base ≤ p.seq_num ∧ p.seq_num < win.base + win.window_size)
    {s : Nat} (h1 : win.base ≤ s) (h2 : s < win.base + win.window_size) :
    ∃ i, ∃ hi : i < win.packets.length, (win.packets[i]).seq_num = s := by
  set L := win.packets.map Packet.seq_num with hL
  have hsub : L.toFinset ⊆ Finset.Ico win.base (win.base + win.window_size) := by
    intro x hx
    rw [List.mem_toFinset] at hx
    obtain ⟨p, hp, rfl⟩ := List.mem_map.mp hx
    exact Finset.mem_Ico.mpr (hrange p hp)
  have hcard : (Finset.Ico win.base (win.base + win.window_size)).card ≤ L.toFinset.card := by
    rw [List.toFinset_card_of_nodup hnd, Nat.card_Ico]
    simp [hL, hlen]
  have heq := Finset.eq_of_subset_of_card_le hsub hcard
  have hs : s ∈ L.toFinset := by
    rw [heq]
    exact Finset.mem_Ico.mpr ⟨h1, h2⟩
  rw [List.mem_toFinset] at hs
  obtain ⟨p, hp, hps⟩ := List.mem_map.mp hs
  obtain ⟨i, hi, rfl⟩ := List.mem_iff_getElem.mp hp
  exact ⟨i, hi, hps⟩

/-! ### uint32 predecessor facts -/

theorem u32pred_succ {n : Nat} (h : n + 1 < M32) : u32pred (n + 1) = n := by
  rw [u32pred, u32sub, M32] at *
  rw [Nat.mod_eq_of_lt h]
  omega

theorem u32pred_ge (n : Nat) (h : n < M32) : n ≤ u32pred n ∨ u32pred n + 1 = n := by
  cases n with
  | zero => left; rw [u32pred, u32sub, M32] at *; omega
  | succ k => right; rw [u32pred_succ h]


theorem rrApply_def (st : AckStatics) (win : Window) (a : Nat) :
    rrApply (st, win) a =
      ((windowMarkAck st win a).1, windowSlide (windowMarkAck st win a).2) := rfl

theorem Packet.eta_ack_false {p : Packet} (h : p.acknowledged = false) :
    ({ p with acknowledged := false }) = p := by
  cases p
  simp only [] at h
  rw [h]

theorem ackMarkedIn_seq_num (L : List Nat) (p : Packet) :
    (ackMarkedIn L p).seq_num = p.seq_num := by
  rw [ackMarkedIn]; split <;> rfl

theorem mem_range_map_add {B m x : Nat} :
    x ∈ (List.range m).map (B + ·) ↔ B ≤ x ∧ x < B + m := by
  simp only [List.mem_map, List.mem_range]
  constructor
  · rintro ⟨k, hk, rfl⟩; omega
  · intro h; exact ⟨x - B, by omega, by omega⟩

/-- In the duplicate-ack branch (ack equal to base - 1 in uint32),
window_mark_ack never changes an all-unacknowledged window: the only write
it can perform re-clears an acknowledged flag. -/
theorem windowMarkAck_snd_of_pred {st : AckStatics} {win : Window} {a : Nat}
    (hbr : a = u32pred win.base)
    (hlen : win.packets.length = win.window_size)
    (hw : 1 ≤ win.window_size)
    (hack : ∀ p ∈ win.packets, p.acknowledged = false) :
    (windowMarkAck st win a).2 = win := by
  rw [windowMarkAck, if_pos hbr]
  have hidx : win.base % win.window_size < win.packets.length := by
    rw [hlen]; exact Nat.mod_lt _ (by omega)
  by_cases h1 : st.last_repeated_ack = a
  · rw [if_pos h1]
    by_cases h2 : 3 ≤ st.repeat_count + 1
    · rw [if_pos h2]
      dsimp only
      split
      · rw [slot_eq_getElem hidx,
          Packet.eta_ack_false (hack _ (List.getElem_mem hidx)), set_self hidx]
      · rfl
    · rw [if_neg h2]
  · rw [if_neg h1]


/-- Marking `[base, base+m)` and sliding, on an all-unacknowledged window
with distinct in-range seqs: the base advances by `m` and exactly the slots
below the new base are cleared. -/
theorem mark_slide_char {win : Window} {m : Nat}
    (_h1 : 1 ≤ m) (h2 : m ≤ win.window_size)
    (hlen : win.packets.length = win.window_size)
    (hw : 1 ≤ win.window_size)
    (hack : ∀ p ∈ win.packets, p.acknowledged = false)
    (hrange : ∀ p ∈ win.packets,
        win.base ≤ p.seq_num ∧ p.seq_num < win.base + win.window_size)
    (hnd : (win.packets.map Packet.seq_num).Nodup) :
    windowSlide (markSeqs win ((List.range m).map (win.base + ·))) =
      { win with base := win.base + m, packets :=
          win.packets.map (fun p => if p.seq_num < win.base + m then Packet.cleared else p) } := by
  rw [markSeqs_eq_map hlen hw hnd, windowSlide]
  have hstep := slideLoop_exact m
    { win with packets := win.packets.map (ackMarkedIn ((List.range m).map (win.base + ·))) }
    win.window_size (by simpa using hlen) h2 ?hr ?hp ?hi
  case hr =>
    intro p hp hackp
    obtain ⟨q, hq, rfl⟩ := List.mem_map.mp hp
    rw [ackMarkedIn] at hackp ⊢
    by_cases hin : q.seq_num ∈ (List.range m).map (win.base + ·)
    · rw [if_pos hin]
      have hb := mem_range_map_add.mp hin
      exact ⟨hb.1, hb.2⟩
    · rw [if_neg hin, hack q hq] at hackp
      cases hackp
  case hp =>
    intro k hk
    obtain ⟨i, hi, hs⟩ := seq_present hlen hnd hrange
      (Nat.le_add_right win.base k) (by omega)
    refine ⟨i, by simpa using hi, ?_, ?_⟩
    · rw [List.getElem_map, ackMarkedIn_seq_num]
      exact hs
    · rw [List.getElem_map, ackMarkedIn,
        if_pos (mem_range_map_add.mpr (by omega))]
  case hi =>
    intro i j hi hj ha hb hs
    have hi' : i < win.packets.length := by simpa using hi
    have hj' : j < win.packets.length := by simpa using hj
    rw [List.getElem_map, List.getElem_map, ackMarkedIn_seq_num, ackMarkedIn_seq_num] at hs
    exact seq_inj_of_nodup hnd hi' hj' hs
  rw [hstep]
  congr 1
  rw [List.map_map]
  apply List.map_congr_left
  intro p hp
  show clearAcked (ackMarkedIn ((List.range m).map (win.base + ·)) p)
      = if p.seq_num < win.base + m then Packet.cleared else p
  rw [ackMarkedIn]
  by_cases hin : p.seq_num ∈ (List.range m).map (win.base + ·)
  · rw [if_pos hin, clearAcked, if_pos rfl,
      if_pos (mem_range_map_add.mp hin).2]
  · rw [if_neg hin, clearAcked, if_neg (by rw [hack p hp]; exact Bool.false_ne_true),
      if_neg (by intro hc; exact hin (mem_range_map_add.mpr ⟨(hrange p hp).1, hc⟩))]


/-- One RR(a) application through the ack-processing else branch: the base
advances by some m and the slots below the new base are cleared. -/
theorem rr_else_char {st : AckStatics} {win : Window} {a : Nat}
    (hbr : a ≠ u32pred win.base)
    (hnold : ¬(a < win.base ∧ 5 < win.base - a))
    (hlen : win.packets.length = win.window_size)
    (hw : 1 ≤ win.window_size)
    (hM : win.base + win.window_size < M32)
    (hack : ∀ p ∈ win.packets, p.acknowledged = false)
    (hrange : ∀ p ∈ win.packets,
        win.base ≤ p.seq_num ∧ p.seq_num < win.base + win.window_size)
    (hnd : (win.packets.map Packet.seq_num).Nodup) :
    ∃ m, 1 ≤ m ∧ m ≤ win.window_size ∧
      (m = win.window_size ∨ win.base + m = a + 1) ∧
      rrApply (st, win) a =
        (st, { win with base := win.base + m, packets :=
            win.packets.map (fun p => if p.seq_num < win.base + m then Packet.cleared else p) }) := by
  have key : ∀ m, 1 ≤ m → m ≤ win.window_size →
      windowMarkAck st win a = (st, markSeqs win ((List.range m).map (win.base + ·))) →
      rrApply (st, win) a =
        (st, { win with base := win.base + m, packets :=
            win.packets.map (fun p => if p.seq_num < win.base + m then Packet.cleared else p) }) := by
    intro m h1 h2 hmk
    rw [rrApply_def, hmk]
    rw [mark_slide_char h1 h2 hlen hw hack hrange hnd]
  by_cases hge : win.base ≤ a
  · by_cases hbig : win.window_size < a - win.base + 1
    · refine ⟨win.window_size, hw, le_refl _, Or.inl rfl, key _ hw (le_refl _) ?_⟩
      rw [windowMarkAck, if_neg hbr, if_neg hnold]
      dsimp only
      rw [if_pos hge, if_pos hbig]
    · refine ⟨a - win.base + 1, by omega, by omega, Or.inr (by omega), key _ (by omega) (by omega) ?_⟩
      rw [windowMarkAck, if_neg hbr, if_neg hnold]
      dsimp only
      rw [if_pos hge, if_neg hbig]
  · have hwrap : win.window_size < M32 - win.base + a := by
      rw [M32] at hM ⊢
      omega
    refine ⟨win.window_size, hw, le_refl _, Or.inl rfl, key _ hw (le_refl _) ?_⟩
    rw [windowMarkAck, if_neg hbr, if_neg hnold]
    dsimp only
    rw [if_neg hge, if_pos hwrap]


/-- Windows on which one more RR(a) application is a no-op: either the ack
sits just below the base (duplicate-ack branch), or every slot is cleared
with a positive base. -/
theorem rr_stable {st : AckStatics} {win1 : Window} {a : Nat}
    (hlen1 : win1.packets.length = win1.window_size)
    (hw1 : 1 ≤ win1.window_size)
    (hack1 : ∀ p ∈ win1.packets, p.acknowledged = false)
    (hst : a = u32pred win1.base ∨
      ((∀ p ∈ win1.packets, p = Packet.cleared) ∧ 1 ≤ win1.base)) :
    (rrApply (st, win1) a).2 = win1 := by
  rw [rrApply_def]
  rcases hst with hbr2 | ⟨hclr, hb1⟩
  · rw [windowMarkAck_snd_of_pred hbr2 hlen1 hw1 hack1, windowSlide_eq_of_unacked hack1]
  · by_cases hbr2 : a = u32pred win1.base
    · rw [windowMarkAck_snd_of_pred hbr2 hlen1 hw1 hack1, windowSlide_eq_of_unacked hack1]
    · by_cases hold2 : a < win1.base ∧ 5 < win1.base - a
      · have e : windowMarkAck st win1 a = (st, win1) := by
          rw [windowMarkAck, if_neg hbr2, if_pos hold2]
        rw [e, windowSlide_eq_of_unacked hack1]
      · have e : (windowMarkAck st win1 a).2 = win1 := by
          rw [windowMarkAck, if_neg hbr2, if_neg hold2]
          dsimp only
          apply markSeqs_eq_of_no_match
          intro s hs i
          obtain ⟨k, hk, rfl⟩ := List.mem_map.mp hs
          have h0 : Packet.cleared.seq_num = 0 := rfl
          by_cases hi : i < win1.packets.length
          · rw [slot_eq_getElem hi, hclr _ (List.getElem_mem hi)]
            intro hc
            omega
          · rw [slot_of_le_length (Nat.le_of_not_lt hi)]
            intro hc
            omega
        rw [e, windowSlide_eq_of_unacked hack1]

/-- C9 (amended).  RR(a) processing (window_mark_ack followed by
window_slide) is idempotent on the window state for windows whose slots
are all unacknowledged, carry distinct sequence numbers inside
[base, base+window_size), and whose counters stay below 2^32. -/
theorem C9_rr_idempotent_amended (st : AckStatics) (win : Window) (a : Nat)
    (hlen : win.packets.length = win.window_size)
    (hw : 1 ≤ win.window_size)
    (hM : win.base + win.window_size < M32)
    (hack : ∀ p ∈ win.packets, p.acknowledged = false)
    (hrange : ∀ p ∈ win.packets,
        win.base ≤ p.seq_num ∧ p.seq_num < win.base + win.window_size)
    (hnd : (win.packets.map Packet.seq_num).Nodup) :
    (rrApply (rrApply (st, win) a) a).2 = (rrApply (st, win) a).2 := by
  by_cases hbr : a = u32pred win.base
  · have e1 : rrApply (st, win) a = ((windowMarkAck st win a).1, win) := by
      rw [rrApply_def, windowMarkAck_snd_of_pred hbr hlen hw hack,
        windowSlide_eq_of_unacked hack]
    rw [e1]
    exact rr_stable hlen hw hack (Or.inl hbr)
  · by_cases hold : a < win.base ∧ 5 < win.base - a
    · have e0 : windowMarkAck st win a = (st, win) := by
        rw [windowMarkAck, if_neg hbr, if_pos hold]
      have e1 : rrApply (st, win) a = (st, win) := by
        rw [rrApply_def, e0, windowSlide_eq_of_unacked hack]
      rw [e1, e1]
    · obtain ⟨m, h1m, h2m, hdisj, heq⟩ := rr_else_char hbr hold hlen hw hM hack hrange hnd
      rw [heq]
      apply rr_stable
      · show (win.packets.map _).length = win.window_size
        rw [List.length_map]
        exact hlen
      · exact hw
      · intro p hp
        obtain ⟨q, hq, rfl⟩ := List.mem_map.mp hp
        by_cases hq2 : q.seq_num < win.base + m
        · rw [if_pos hq2]
          rfl
        · rw [if_neg hq2]
          exact hack q hq
      · rcases hdisj with hmw | hsum
        · refine Or.inr ⟨?_, by show 1 ≤ win.base + m; omega⟩
          intro p hp
          obtain ⟨q, hq, rfl⟩ := List.mem_map.mp hp
          rw [if_pos (by have := (hrange q hq).2; omega)]
        · refine Or.inl ?_
          show a = u32pred (win.base + m)
          rw [hsum, u32pred_succ (by rw [M32] at hM ⊢; omega)]

/-- C9 counterexample: applying RR(5) twice to the concrete window c9win
acknowledges the far-ahead slot for seq 2 that a single application leaves
unacknowledged, so RR processing is not idempotent as claimed. -/
theorem C9_counterexample :
    (rrApply (rrApply (⟨⟨0, 0⟩, c9win⟩) 5) 5).2 ≠ (rrApply (⟨⟨0, 0⟩, c9win⟩) 5).2 := by
  decide

/-- Witness for the amended C9 theorem at a concrete in-range window. -/
theorem C9_witness :
    (c9idealwin.packets.length = c9idealwin.window_size ∧ 1 ≤ c9idealwin.window_size ∧
      c9idealwin.base + c9idealwin.window_size < M32 ∧
      (∀ p ∈ c9idealwin.packets, p.acknowledged = false) ∧
      (∀ p ∈ c9idealwin.packets,
        c9idealwin.base ≤ p.seq_num ∧ p.seq_num < c9idealwin.base + c9idealwin.window_size) ∧
      (c9idealwin.packets.map Packet.seq_num).Nodup) ∧
    (rrApply (rrApply (⟨⟨0, 0⟩, c9idealwin⟩) 0) 0).2 = (rrApply (⟨⟨0, 0⟩, c9idealwin⟩) 0).2 :=
  ⟨⟨by decide, by decide, by decide, by decide, by decide, by decide⟩,
    C9_rr_idempotent_amended ⟨0, 0⟩ c9idealwin 0 (by decide) (by decide) (by decide)
      (by decide) (by decide) (by decide)⟩


/-! ### C4: SREJ handling -/

/-- C4 counterexample: a sequence number absent from the window store but
inside the replay buffer's [start_seq, end_seq) range (and actually
readable from it) draws no retransmission at all: the SREJ branch sends
nothing, contradicting the claimed replay-buffer fallback. -/
theorem C4_counterexample :
    (srejResponse (windowInit 2) 1).1 = none ∧
    windowGetPacket (windowInit 2) 1 = none ∧
    (cbWrite (cbWrite (cbInit 4 1) [7] 1 0).2 [8] 1 1).2.start_seq ≤ 1 ∧
    1 < (cbWrite (cbWrite (cbInit 4 1) [7] 1 0).2 [8] 1 1).2.end_seq ∧
    cbReadSeq (cbWrite (cbWrite (cbInit 4 1) [7] 1 0).2 [8] 1 1).2 1 1 = some [8] := by
  decide

/-- C4 (amended).  On SREJ for seq `s` the sender re-sends the stored
frame with flag RESENT_SREJ and a freshly computed checksum when
window_get_packet finds it; otherwise the SREJ is dropped, even when `s`
lies within the replay buffer's range -- the replay buffer is never
consulted on SREJ. -/
theorem C4_srej_amended (win : Window) (s : Nat) :
    (windowGetPacket win s = none →
      ∀ cb : CircBuf, cb.start_seq ≤ s → s < cb.end_seq →
        (srejResponse win s).1 = none ∧ (srejResponse win s).2 = win) ∧
    (∀ idx pdu, windowGetPacket win s = some idx → (win.slot idx).data = some pdu →
      (srejResponse win s).1 = some (resendWithFlag pdu FLAG_RESENT_SREJ) ∧
      (resendWithFlag pdu FLAG_RESENT_SREJ).checksum =
        freshCksum (resendWithFlag pdu FLAG_RESENT_SREJ)) := by
  constructor
  · intro hnone cb _ _
    rw [srejResponse, hnone]
    exact ⟨rfl, rfl⟩
  · intro idx pdu hidx hpdu
    refine ⟨?_, rfl⟩
    simp only [srejResponse, hidx, hpdu]

/-- Witness for the amended C4 theorem: the drop case on an empty window
with the seq readable from a populated replay buffer, and the resend case
on a window holding the requested frame. -/
theorem C4_witness :
    ((srejResponse (windowInit 2) 1).1 = none ∧ (srejResponse (windowInit 2) 1).2 = windowInit 2) ∧
    ((srejResponse c9idealwin 0).1 = some (resendWithFlag (mkPdu 0 FLAG_DATA []) FLAG_RESENT_SREJ) ∧
      (resendWithFlag (mkPdu 0 FLAG_DATA []) FLAG_RESENT_SREJ).checksum =
        freshCksum (resendWithFlag (mkPdu 0 FLAG_DATA []) FLAG_RESENT_SREJ)) :=
  ⟨(C4_srej_amended (windowInit 2) 1).1 (by decide)
      (cbWrite (cbWrite (cbInit 4 1) [7] 1 0).2 [8] 1 1).2 (by decide) (by decide),
    (C4_srej_amended c9idealwin 0).2 0 (mkPdu 0 FLAG_DATA []) (by decide) (by decide)⟩


/-! ### C2: in-order, exactly-once delivery by the receiver -/

theorem recvDrain_writes_inv (fuel : Nat) :
    ∀ (win : Window) (markSt : AckStatics) (expected : Nat)
      (writes : List (Nat × List Nat)) (sends : List (Nat × Nat)),
    writes.map Prod.fst = List.range expected →
    ((recvDrain fuel win markSt expected writes sends).2.2.2.1).map Prod.fst
      = List.range (recvDrain fuel win markSt expected writes sends).2.2.1 := by
  induction fuel with
  | zero => intro win markSt expected writes sends h; exact h
  | succ fuel ih =>
      intro win markSt expected writes sends h
      rw [recvDrain]
      cases hg : windowGetPacket win expected with
      | none => exact h
      | some idx =>
          dsimp only
          cases hd : (win.slot idx).data with
          | none => exact h
          | some pdu =>
              dsimp only
              apply ih
              rw [List.map_append, h, List.range_succ]
              rfl

theorem receiverStep_writes_inv (st : RecvState) (ev : RecvEvent)
    (h : st.writes.map Prod.fst = List.range st.expected_seq) :
    (receiverStep st ev).writes.map Prod.fst
      = List.range (receiverStep st ev).expected_seq := by
  cases ev with
  | timeout =>
      rw [receiverStep]
      by_cases he : st.eof_received
      · rw [if_pos he]; exact h
      · rw [if_neg he]
        dsimp only
        split
        · exact h
        · exact h
  | short => exact h
  | frame corrupt flag seq payload =>
      rw [receiverStep]
      by_cases hc : corrupt
      · rw [if_pos hc]; exact h
      · rw [if_neg hc]
        dsimp only
        by_cases hfl : flag = FLAG_DATA ∨ flag = FLAG_RESENT_SREJ ∨ flag = FLAG_RESENT_TIMEOUT
        · rw [if_pos hfl]
          by_cases hse : seq = st.expected_seq
          · rw [if_pos hse]
            dsimp only
            have hdr := recvDrain_writes_inv (st.win.window_size + 1) st.win st.markStatics
              (st.expected_seq + 1) (st.writes ++ [(seq, payload)])
              (st.sends ++ [(FLAG_RR, seq)])
              (by rw [List.map_append, h, List.range_succ, hse]; rfl)
            split
            · exact hdr
            · exact hdr
          · rw [if_neg hse]
            by_cases hlt : st.expected_seq < seq
            · rw [if_pos hlt]
              dsimp only
              split
              · exact h
              · exact h
            · rw [if_neg hlt]
              by_cases h0 : 0 < st.expected_seq
              · rw [if_pos h0]
                split
                · exact h
                · exact h
              · rw [if_neg h0]
                split
                · exact h
                · exact h
        · rw [if_neg hfl]
          by_cases heof : flag = FLAG_EOF
          · rw [if_pos heof]
            dsimp only
            split
            · split
              · exact h
              · exact h
            · split
              · exact h
              · exact h
          · rw [if_neg heof]
            split
            · exact h
            · exact h

/-- C2.  In every receiver run, the sequence numbers of the data frames
written to the sink are exactly 0, 1, ..., expected_seq - 1 in order:
each frame payload is written at most once, writes occur in strictly
increasing seq order, and a payload for seq s is written only after every
seq below s. -/
theorem C2_receiver_in_order (w : Nat) (events : List RecvEvent) :
    ((receiverRun w events).writes).map Prod.fst
      = List.range ((receiverRun w events).expected_seq) := by
  rw [receiverRun]
  have hgen : ∀ (st : RecvState), st.writes.map Prod.fst = List.range st.expected_seq →
      ((events.foldl (fun st ev => if st.finished then st else receiverStep st ev) st).writes).map
          Prod.fst
        = List.range ((events.foldl
            (fun st ev => if st.finished then st else receiverStep st ev) st).expected_seq) := by
    induction events with
    | nil => intro st h; exact h
    | cons e rest ih =>
        intro st h
        rw [List.foldl_cons]
        apply ih
        by_cases hf : st.finished
        · rw [if_pos hf]; exact h
        · rw [if_neg hf]; exact receiverStep_writes_inv st e h
  exact hgen (receiverInit w) rfl


/-! ### C8: receiver timeout handling -/

/-- C8 counterexample: consecutive_timeouts is never reset when data
arrives.  After 14 timeouts, one successfully delivered in-order data
frame, and a single further timeout, the receiver gives up (emits the
final SREJ for highest+1 and finishes), although only one timeout has
elapsed since the last received data. -/
theorem C8_counterexample :
    (receiverRun 4 c8trace).finished = true ∧
    (receiverRun 4 c8trace).consecutive_timeouts = 15 ∧
    (receiverRun 4 c8trace).writes = [(0, [1])] ∧
    (receiverRun 4 c8trace).sends.getLast? = some (FLAG_SREJ, 1) := by
  decide

/-- C8 (amended).  On a poll timeout the receiver finishes if EOF was
seen; otherwise it re-emits RR for highest_received_seq and increments
consecutive_timeouts, a cumulative counter that no received frame ever
resets; when the counter reaches 15 it emits one last SREJ for
highest_received_seq + 1 and finishes. -/
theorem C8_receiver_timeout_amended (st : RecvState) :
    (∀ corrupt flag seq payload,
      (receiverStep st (RecvEvent.frame corrupt flag seq payload)).consecutive_timeouts
        = st.consecutive_timeouts) ∧
    ((receiverStep st RecvEvent.short).consecutive_timeouts = st.consecutive_timeouts) ∧
    (st.eof_received = true →
      receiverStep st RecvEvent.timeout = { st with finished := true }) ∧
    (st.eof_received = false → st.consecutive_timeouts + 1 < 15 →
      receiverStep st RecvEvent.timeout =
        { st with sends := st.sends ++ [(FLAG_RR, st.highest_received_seq)],
                  consecutive_timeouts := st.consecutive_timeouts + 1 }) ∧
    (st.eof_received = false → 15 ≤ st.consecutive_timeouts + 1 →
      receiverStep st RecvEvent.timeout =
        (let s2 := st.sends ++ [(FLAG_RR, st.highest_received_seq), (FLAG_SREJ, st.highest_received_seq + 1)]
         { st with sends := s2, consecutive_timeouts := st.consecutive_timeouts + 1, finished := true })) := by
  refine ⟨?_, rfl, ?_, ?_, ?_⟩
  · intro corrupt flag seq payload
    rw [receiverStep]
    by_cases hc : corrupt
    · rw [if_pos hc]
    · rw [if_neg hc]
      dsimp only
      repeat' split
      all_goals rfl
  · intro he
    rw [receiverStep, if_pos he]
  · intro he hlt
    rw [receiverStep, if_neg (by rw [he]; exact Bool.false_ne_true)]
    dsimp only
    rw [if_neg (by omega)]
  · intro he hge
    rw [receiverStep, if_neg (by rw [he]; exact Bool.false_ne_true)]
    dsimp only
    rw [if_pos (by omega)]
    congr 1
    rw [List.append_assoc]
    rfl

/-- Witness for the amended C8 theorem: one more timeout at counter 14
finishes the transfer with the final SREJ. -/
theorem C8_witness :
    (c8wst.eof_received = false ∧ 15 ≤ c8wst.consecutive_timeouts + 1) ∧
    receiverStep c8wst RecvEvent.timeout =
      (let s2 := c8wst.sends ++ [(FLAG_RR, c8wst.highest_received_seq), (FLAG_SREJ, c8wst.highest_received_seq + 1)]
       { c8wst with sends := s2, consecutive_timeouts := c8wst.consecutive_timeouts + 1, finished := true }) :=
  ⟨⟨by decide, by decide⟩,
    (C8_receiver_timeout_amended c8wst).2.2.2.2 (by decide) (by decide)⟩


/-! ### C5: client handshake retry behavior -/

/-- C5.  The failure exit of send_filename_request sits inside the retry
loop, so a run in which no datagram at all arrives within the 5000 ms
wait exits with failure after a single FILENAME send, not after
INIT_RETRY_LIMIT = 10 attempts; only corrupted replies take the continue
path that actually retries (and exhausting those 10 retries falls out of
the loop onto the success path). -/
theorem C5_handshake_single_attempt (rest : List FnEvent) :
    sendFilenameRequest (FnEvent.timeout :: rest) = FnResult.failExit 1 ∧
    sendFilenameRequest [] = FnResult.failExit 1 ∧
    sendFilenameRequest
        (List.replicate INIT_RETRY_LIMIT (FnEvent.reply HEADER_SIZE true 0 []))
      = FnResult.exhausted 10 := by
  refine ⟨rfl, rfl, by decide⟩

/-! ### C6: server filename OK response -/

/-- C6 counterexample: with the OK response the server passes
break_after = 3, so an unacknowledged response is sent only 3 times (not
MAX_RETRANSMIT = 10), and datagrams whose flag is not FILENAME do not
make it transition. -/
theorem C6_counterexample :
    sendFilenameResponse 3 true (List.replicate 10 SfrEvent.timeout) = (3, false) ∧
    sendFilenameResponse 3 true (List.replicate 10 (SfrEvent.dgram 11 FLAG_RR)) = (3, false) ∧
    (3 : Nat) ≠ 10 := by
  refine ⟨by decide, by decide, by decide⟩

theorem sfrLoop_sends_le (fuel : Nat) :
    ∀ (retries : Nat) (events : List SfrEvent) (sends : Nat), retries ≤ 2 →
      (sfrLoop 3 true fuel retries events sends).1 ≤ sends + (3 - retries) := by
  induction fuel with
  | zero => intro retries events sends h; simp [sfrLoop]
  | succ fuel ih =>
      intro retries events sends h
      rw [sfrLoop]
      rw [if_neg (by rw [MAX_RETRANSMIT]; omega)]
      cases events with
      | nil =>
          dsimp only
          by_cases hb : 3 ≤ retries + 1
          · rw [if_pos hb]; omega
          · rw [if_neg hb]
            have := ih (retries + 1) [] (sends + 1) (by omega)
            omega
      | cons e rest =>
          dsimp only
          cases e with
          | dgram len flag =>
              dsimp only
              by_cases hm : HEADER_SIZE ≤ len ∧ flag = FLAG_FILENAME
              · rw [if_pos hm, if_pos rfl]
                omega
              · rw [if_neg hm]
                by_cases hb : 3 ≤ retries + 1
                · rw [if_pos hb]; omega
                · rw [if_neg hb]
                  have := ih (retries + 1) rest (sends + 1) (by omega)
                  omega
          | timeout =>
              dsimp only
              by_cases hb : 3 ≤ retries + 1
              · rw [if_pos hb]; omega
              · rw [if_neg hb]
                have := ih (retries + 1) rest (sends + 1) (by omega)
                omega

theorem sfrLoop_filename_first (fuel retries sends len flag : Nat)
    (rest : List SfrEvent) (hr : retries < MAX_RETRANSMIT)
    (hlen : HEADER_SIZE ≤ len) (hfl : flag = FLAG_FILENAME) :
    sfrLoop 3 true (fuel + 1) retries (SfrEvent.dgram len flag :: rest) sends
      = (sends + 1, true) := by
  rw [sfrLoop, if_neg (by omega)]
  dsimp only
  rw [if_pos ⟨hlen, hfl⟩, if_pos rfl]

/-- C6 (amended).  When the server child opens the file it sends the OK
FILENAME_RESP at most 3 times (the call passes break_after = 3, cutting
the MAX_RETRANSMIT = 10 loop short), each send followed by a 1000 ms
wait, and it transitions to data transfer on the first received datagram
of at least header size whose flag is FILENAME.  Every attempt that does
not receive such an acknowledgment — a poll timeout, a short datagram,
or a datagram of any other flag — consumes a retry: while another
attempt remains the loop goes on to resend with retries incremented, and
once the incremented count reaches break_after it stops unacknowledged
after that attempt's send. -/
theorem C6_filename_response_amended (events : List SfrEvent) (len flag : Nat)
    (rest : List SfrEvent) (hlen : HEADER_SIZE ≤ len) (hfl : flag = FLAG_FILENAME) :
    (sendFilenameResponse 3 true events).1 ≤ 3 ∧
    sendFilenameResponse 3 true (SfrEvent.dgram len flag :: rest) = (1, true) ∧
    (∀ (e : SfrEvent) (fuel r sends : Nat) (tail : List SfrEvent),
      (∀ l f, e = SfrEvent.dgram l f → ¬(HEADER_SIZE ≤ l ∧ f = FLAG_FILENAME)) →
      r < MAX_RETRANSMIT →
      (r + 1 < 3 →
        sfrLoop 3 true (fuel + 1) r (e :: tail) sends
          = sfrLoop 3 true fuel (r + 1) tail (sends + 1)) ∧
      (3 ≤ r + 1 →
        sfrLoop 3 true (fuel + 1) r (e :: tail) sends = (sends + 1, false))) := by
  refine ⟨?_, ?_, ?_⟩
  · exact sfrLoop_sends_le (events.length + MAX_RETRANSMIT) 0 events 0 (by omega)
  · show sfrLoop 3 true ((SfrEvent.dgram len flag :: rest).length + MAX_RETRANSMIT)
      0 (SfrEvent.dgram len flag :: rest) 0 = (1, true)
    have hf : (SfrEvent.dgram len flag :: rest).length + MAX_RETRANSMIT
        = (rest.length + MAX_RETRANSMIT) + 1 := by
      rw [List.length_cons]; omega
    rw [hf]
    exact sfrLoop_filename_first (rest.length + MAX_RETRANSMIT) 0 0 len flag rest
      (by rw [MAX_RETRANSMIT]; omega) hlen hfl
  · intro e fuel r sends tail hne hr
    constructor
    · intro hlt
      cases e with
      | timeout =>
          rw [sfrLoop, if_neg (by omega)]
          dsimp only
          rw [if_neg (by omega)]
      | dgram l f =>
          rw [sfrLoop, if_neg (by omega)]
          dsimp only
          rw [if_neg (hne l f rfl), if_neg (by omega)]
    · intro hge
      cases e with
      | timeout =>
          rw [sfrLoop, if_neg (by omega)]
          dsimp only
          rw [if_pos hge]
      | dgram l f =>
          rw [sfrLoop, if_neg (by omega)]
          dsimp only
          rw [if_neg (hne l f rfl), if_pos hge]

/-- Witness for the amended C6 theorem, including a concrete instance of
the retry-consumption step: a timeout at retries 0 leaves the loop
resending with retries 1. -/
theorem C6_witness :
    (HEADER_SIZE ≤ 11 ∧ FLAG_FILENAME = FLAG_FILENAME ∧ 0 < MAX_RETRANSMIT ∧
      (0 : Nat) + 1 < 3) ∧
    ((sendFilenameResponse 3 true [SfrEvent.timeout]).1 ≤ 3 ∧
      sendFilenameResponse 3 true [SfrEvent.dgram 11 FLAG_FILENAME] = (1, true)) ∧
    sfrLoop 3 true 3 0 [SfrEvent.timeout] 0 = sfrLoop 3 true 2 1 [] 1 :=
  ⟨⟨by decide, rfl, by decide, by decide⟩,
    ⟨(C6_filename_response_amended [SfrEvent.timeout] 11 FLAG_FILENAME []
        (by decide) rfl).1,
      (C6_filename_response_amended [SfrEvent.timeout] 11 FLAG_FILENAME []
        (by decide) rfl).2.1⟩,
    ((C6_filename_response_amended [SfrEvent.timeout] 11 FLAG_FILENAME []
        (by decide) rfl).2.2 SfrEvent.timeout 2 0 0 []
      (fun l f h => by cases h) (by decide)).1 (by decide)⟩


/-! ### C7: EOF exchange -/

/-- C7 counterexample: with no acknowledgment at all, send_eof_packet
sends the EOF frame exactly 5 times and then treats the session as
closed (eof_retries reaching 5 triggers the give-up break), not 6 as
claimed. -/
theorem C7_counterexample :
    sendEofPacket 1 (List.replicate 10 EofEvent.timeout)
      = EofOutcome.closedUnilaterally 5 ∧ (5 : Nat) ≠ 6 := by
  refine ⟨by decide, by decide⟩

theorem eofLoop_rr_accept (base fuel retries sends v : Nat) (rest : List EofEvent)
    (hr : retries < MAX_RETRANSMIT) (hacc : u32pred base ≤ v ∨ 3 ≤ retries) :
    eofLoop base (fuel + 1) retries (EofEvent.rr v :: rest) sends
      = EofOutcome.acked (sends + 1) := by
  rw [eofLoop, if_neg (by omega)]
  dsimp only
  rw [if_pos hacc]

theorem eofLoop_timeout_step (base fuel retries sends : Nat) (rest : List EofEvent)
    (hr : retries < MAX_RETRANSMIT) (hb : retries + 1 < 5) :
    eofLoop base (fuel + 1) retries (EofEvent.timeout :: rest) sends
      = eofLoop base fuel (retries + 1) rest (sends + 1) := by
  rw [eofLoop, if_neg (by omega)]
  dsimp only
  rw [if_neg (by omega)]

/-- C7 (amended).  After base = next_seq with eof_reached, the sender
sends an EOF frame with seq = next_seq (and empty payload) and waits
1000 ms per attempt; a valid RR with value at least base - 1 (computed in
uint32, so equal to next_seq - 1 at this call site when next_seq ≥ 1) is
accepted at once; from attempt 4 onward any valid RR is accepted; and
when eof_retries reaches 5 -- after the 5th unacknowledged attempt -- the
sender treats the session as closed unilaterally. -/
theorem C7_eof_amended (base v : Nat) (rest : List EofEvent)
    (hv : u32pred base ≤ v) :
    (∀ seq : Nat, (eofFrame seq).seq_num = seq ∧ (eofFrame seq).flag = FLAG_EOF ∧
      (eofFrame seq).payload = []) ∧
    sendEofPacket base (EofEvent.rr v :: rest) = EofOutcome.acked 1 ∧
    (∀ v2 : Nat, sendEofPacket base (EofEvent.timeout :: EofEvent.timeout ::
      EofEvent.timeout :: EofEvent.rr v2 :: rest) = EofOutcome.acked 4) ∧
    sendEofPacket base (List.replicate 10 EofEvent.timeout)
      = EofOutcome.closedUnilaterally 5 := by
  refine ⟨fun seq => ⟨rfl, rfl, rfl⟩, ?_, ?_, rfl⟩
  · show eofLoop base ((EofEvent.rr v :: rest).length + MAX_RETRANSMIT)
      0 (EofEvent.rr v :: rest) 0 = EofOutcome.acked 1
    have hf : (EofEvent.rr v :: rest).length + MAX_RETRANSMIT
        = (rest.length + MAX_RETRANSMIT) + 1 := by
      rw [List.length_cons]; omega
    rw [hf]
    exact eofLoop_rr_accept base (rest.length + MAX_RETRANSMIT) 0 0 v rest
      (by rw [MAX_RETRANSMIT]; omega) (Or.inl hv)
  · intro v2
    show eofLoop base ((EofEvent.timeout :: EofEvent.timeout :: EofEvent.timeout ::
      EofEvent.rr v2 :: rest).length + MAX_RETRANSMIT) 0 _ 0 = EofOutcome.acked 4
    have hf : (EofEvent.timeout :: EofEvent.timeout :: EofEvent.timeout ::
        EofEvent.rr v2 :: rest).length + MAX_RETRANSMIT
        = (((((rest.length + MAX_RETRANSMIT)) + 1) + 1) + 1) + 1 := by
      simp only [List.length_cons]; omega
    rw [hf]
    rw [eofLoop_timeout_step base _ 0 0 _ (by rw [MAX_RETRANSMIT]; omega) (by omega)]
    rw [eofLoop_timeout_step base _ 1 1 _ (by rw [MAX_RETRANSMIT]; omega) (by omega)]
    rw [eofLoop_timeout_step base _ 2 2 _ (by rw [MAX_RETRANSMIT]; omega) (by omega)]
    rw [eofLoop_rr_accept base _ 3 3 v2 rest (by rw [MAX_RETRANSMIT]; omega) (Or.inr (by omega))]

/-- Witness for the amended C7 theorem at base 1 and an immediate RR 0
(0 equals base - 1). -/
theorem C7_witness :
    (u32pred 1 ≤ 0) ∧
    sendEofPacket 1 [EofEvent.rr 0] = EofOutcome.acked 1 ∧
    (∀ v2 : Nat, sendEofPacket 1 (EofEvent.timeout :: EofEvent.timeout ::
      EofEvent.timeout :: EofEvent.rr v2 :: []) = EofOutcome.acked 4) :=
  ⟨by decide, (C7_eof_amended 1 0 [] (by decide)).2.1, (C7_eof_amended 1 0 [] (by decide)).2.2.1⟩


/-! ### Sender-session invariant: slot bookkeeping lemmas -/

theorem getD_set_eq {α : Type} {q d : α} : ∀ (l : List α) (j i : Nat),
    (l.set j q).getD i d = if j = i ∧ j < l.length then q else l.getD i d
  | [], j, i => by
      simp only [List.set_nil, List.length_nil]
      rw [if_neg]
      rintro ⟨-, h⟩
      exact Nat.not_lt_zero j h
  | a :: t, 0, 0 => by simp [List.set, List.getD]
  | a :: t, 0, i + 1 => by
      simp only [List.set, List.length_cons]
      rw [if_neg (by rintro ⟨h, -⟩; cases h)]
      rfl
  | a :: t, j + 1, 0 => by
      simp only [List.set, List.length_cons]
      rw [if_neg (by rintro ⟨h, -⟩; cases h)]
      rfl
  | a :: t, j + 1, i + 1 => by
      simp only [List.set, List.length_cons]
      have := @getD_set_eq _ q d t j i
      simp only [List.getD_cons_succ]
      rw [this]
      by_cases h : j = i ∧ j < t.length
      · rw [if_pos h, if_pos (by omega)]
      · rw [if_neg h, if_neg (by omega)]

/-- Slot read of a window whose packet list had one slot overwritten. -/
theorem slot_set {win : Window} {j : Nat} {q : Packet} {i : Nat} :
    (Window.slot { win with packets := win.packets.set j q } i) =
      if j = i ∧ j < win.packets.length then q else win.slot i := by
  rw [Window.slot, Window.slot, getD_set_eq]

theorem scanSlots_range_pos {win : Window} {start : Nat} {p : Packet → Bool}
    {j : Nat} (h : scanSlots win start p (List.range win.window_size) = some j) :
    0 < win.window_size := by
  cases hw : win.window_size with
  | zero => rw [hw, List.range_zero] at h; cases h
  | succ k => exact Nat.succ_pos k


theorem markLoopBody_length (win : Window) (s : Nat) :
    (markLoopBody win s).packets.length = win.packets.length := by
  rw [markLoopBody]
  cases scanSlots win (s % win.window_size) (fun pk => pk.seq_num == s)
      (List.range win.window_size) with
  | none => rfl
  | some j => simp [List.length_set]

/-- A marking step changes no slot's seq or data. -/
theorem markLoopBody_skel (win : Window) (s : Nat) (i : Nat) :
    ((markLoopBody win s).slot i).seq_num = (win.slot i).seq_num ∧
    ((markLoopBody win s).slot i).data = (win.slot i).data := by
  rw [markLoopBody]
  cases hsc : scanSlots win (s % win.window_size) (fun pk => pk.seq_num == s)
      (List.range win.window_size) with
  | none => exact ⟨rfl, rfl⟩
  | some j =>
      dsimp only
      rw [slot_set]
      by_cases h : j = i ∧ j < win.packets.length
      · rw [if_pos h]
        rcases h with ⟨rfl, -⟩
        exact ⟨rfl, rfl⟩
      · rw [if_neg h]
        exact ⟨rfl, rfl⟩

theorem markLoopBody_acked_mono {win : Window} {s : Nat} {i : Nat}
    (h : (win.slot i).acknowledged = true) :
    ((markLoopBody win s).slot i).acknowledged = true := by
  rw [markLoopBody]
  cases hsc : scanSlots win (s % win.window_size) (fun pk => pk.seq_num == s)
      (List.range win.window_size) with
  | none => exact h
  | some j =>
      dsimp only
      rw [slot_set]
      by_cases hji : j = i ∧ j < win.packets.length
      · rw [if_pos hji]
      · rw [if_neg hji]; exact h

/-- A slot acknowledged after a marking step was already acknowledged or
carries exactly the marked seq. -/
theorem markLoopBody_acked_src {win : Window} {s : Nat} {i : Nat}
    (h : ((markLoopBody win s).slot i).acknowledged = true) :
    (win.slot i).acknowledged = true ∨ (win.slot i).seq_num = s := by
  rw [markLoopBody] at h
  cases hsc : scanSlots win (s % win.window_size) (fun pk => pk.seq_num == s)
      (List.range win.window_size) with
  | none => rw [hsc] at h; exact Or.inl h
  | some j =>
      rw [hsc] at h
      dsimp only at h
      rw [slot_set] at h
      by_cases hji : j = i ∧ j < win.packets.length
      · rw [if_pos hji] at h
        rcases hji with ⟨rfl, -⟩
        have hp := (scanSlots_eq_some (scanSlots_range_pos hsc) hsc).2
        exact Or.inr (eq_of_beq hp)
      · rw [if_neg hji] at h
        exact Or.inl h

/-- When the slot at the marked seq's expected index carries that seq,
the marking step acknowledges it. -/
theorem markLoopBody_hits {win : Window} {s : Nat}
    (hw : 0 < win.window_size) (hlen : win.packets.length = win.window_size)
    (hs : (win.slot (s % win.window_size)).seq_num = s) :
    ((markLoopBody win s).slot (s % win.window_size)).acknowledged = true := by
  rw [markLoopBody]
  obtain ⟨k, hk⟩ : ∃ k, win.window_size = k + 1 :=
    ⟨win.window_size - 1, (Nat.succ_pred_eq_of_pos hw).symm⟩
  have hrange : List.range win.window_size = 0 :: List.map Nat.succ (List.range k) := by
    rw [hk, List.range_succ_eq_map]
  have hsc : scanSlots win (s % win.window_size) (fun pk => pk.seq_num == s)
      (List.range win.window_size) = some (s % win.window_size) := by
    rw [hrange, scanSlots]
    have halt : (s % win.window_size + 0) % win.window_size = s % win.window_size := by
      rw [Nat.add_zero, Nat.mod_mod_of_dvd _ (dvd_refl _)]
    rw [if_pos]
    · rw [halt]
    · rw [halt, hs]
      exact beq_self_eq_true s
  rw [hsc]
  dsimp only
  rw [slot_set, if_pos ⟨rfl, by rw [hlen]; exact Nat.mod_lt _ hw⟩]

theorem markSeqs_length (L : List Nat) : ∀ (win : Window),
    (markSeqs win L).packets.length = win.packets.length := by
  induction L with
  | nil => intro win; rfl
  | cons s rest ih =>
      intro win
      rw [markSeqs, ih, markLoopBody_length]

theorem markSeqs_window_size (L : List Nat) : ∀ (win : Window),
    (markSeqs win L).window_size = win.window_size := by
  induction L with
  | nil => intro win; rfl
  | cons s rest ih =>
      intro win
      rw [markSeqs, ih, markLoopBody_window_size]

theorem markSeqs_base (L : List Nat) : ∀ (win : Window),
    (markSeqs win L).base = win.base := by
  induction L with
  | nil => intro win; rfl
  | cons s rest ih =>
      intro win
      rw [markSeqs, ih, markLoopBody_base]

theorem markSeqs_skel (L : List Nat) : ∀ (win : Window) (i : Nat),
    ((markSeqs win L).slot i).seq_num = (win.slot i).seq_num ∧
    ((markSeqs win L).slot i).data = (win.slot i).data := by
  induction L with
  | nil => intro win i; exact ⟨rfl, rfl⟩
  | cons s rest ih =>
      intro win i
      rw [markSeqs]
      rcases ih (markLoopBody win s) i with ⟨h1, h2⟩
      rcases markLoopBody_skel win s i with ⟨h3, h4⟩
      exact ⟨h1.trans h3, h2.trans h4⟩

theorem markSeqs_acked_mono (L : List Nat) : ∀ (win : Window) (i : Nat),
    (win.slot i).acknowledged = true →
    ((markSeqs win L).slot i).acknowledged = true := by
  induction L with
  | nil => intro win i h; exact h
  | cons s rest ih =>
      intro win i h
      rw [markSeqs]
      exact ih _ _ (markLoopBody_acked_mono h)

theorem markSeqs_acked_src (L : List Nat) : ∀ (win : Window) (i : Nat),
    ((markSeqs win L).slot i).acknowledged = true →
    (win.slot i).acknowledged = true ∨ (win.slot i).seq_num ∈ L := by
  induction L with
  | nil => intro win i h; exact Or.inl h
  | cons s rest ih =>
      intro win i h
      rw [markSeqs] at h
      rcases ih _ _ h with h1 | h1
      · rcases markLoopBody_acked_src h1 with h2 | h2
        · exact Or.inl h2
        · exact Or.inr (h2 ▸ List.mem_cons_self s rest)
      · rw [(markLoopBody_skel win s i).1] at h1
        exact Or.inr (List.mem_cons_of_mem s h1)


/-! ### Sender-session invariant: sliding lemmas -/

theorem slideLoop_base_mono (fuel : Nat) : ∀ (win : Window),
    win.base ≤ (windowSlideLoop win fuel).base := by
  induction fuel with
  | zero => intro win; exact Nat.le_refl _
  | succ f ih =>
      intro win
      rw [windowSlideLoop]
      cases hsc : scanSlots win (win.base % win.window_size)
          (fun pk => pk.seq_num == win.base && pk.acknowledged)
          (List.range win.window_size) with
      | none => exact Nat.le_refl _
      | some idx =>
          dsimp only
          exact Nat.le_trans (Nat.le_succ _)
            (ih { win with packets := win.packets.set idx Packet.cleared,
                           base := win.base + 1 })

theorem slideLoop_window_size (fuel : Nat) : ∀ (win : Window),
    (windowSlideLoop win fuel).window_size = win.window_size := by
  induction fuel with
  | zero => intro win; rfl
  | succ f ih =>
      intro win
      rw [windowSlideLoop]
      cases hsc : scanSlots win (win.base % win.window_size)
          (fun pk => pk.seq_num == win.base && pk.acknowledged)
          (List.range win.window_size) with
      | none => rfl
      | some idx =>
          dsimp only
          exact ih _

theorem slideLoop_length (fuel : Nat) : ∀ (win : Window),
    (windowSlideLoop win fuel).packets.length = win.packets.length := by
  induction fuel with
  | zero => intro win; rfl
  | succ f ih =>
      intro win
      rw [windowSlideLoop]
      cases hsc : scanSlots win (win.base % win.window_size)
          (fun pk => pk.seq_num == win.base && pk.acknowledged)
          (List.range win.window_size) with
      | none => rfl
      | some idx =>
          dsimp only
          rw [ih _]
          simp [List.length_set]

/-- A slide call that does not move the base leaves the window
untouched. -/
theorem slideLoop_id_of_base_eq (fuel : Nat) : ∀ (win : Window),
    (windowSlideLoop win fuel).base = win.base → windowSlideLoop win fuel = win := by
  induction fuel with
  | zero => intro win _; rfl
  | succ f ih =>
      intro win hb
      rw [windowSlideLoop] at hb ⊢
      cases hsc : scanSlots win (win.base % win.window_size)
          (fun pk => pk.seq_num == win.base && pk.acknowledged)
          (List.range win.window_size) with
      | none => rfl
      | some idx =>
          rw [hsc] at hb
          dsimp only at hb
          have h2 := slideLoop_base_mono f
            { win with packets := win.packets.set idx Packet.cleared,
                       base := win.base + 1 }
          have h3 : ({ win with packets := win.packets.set idx Packet.cleared, base := win.base + 1 } : Window).base = win.base + 1 := rfl
          rw [h3] at h2
          omega

/-- An acknowledged slot holding the base seq makes the slide advance. -/
theorem slideLoop_advance {win : Window} {fuel : Nat} (hf : 0 < fuel)
    {i : Nat} (hi : i < win.window_size)
    (hseq : (win.slot i).seq_num = win.base)
    (hack : (win.slot i).acknowledged = true) :
    win.base + 1 ≤ (windowSlideLoop win fuel).base := by
  obtain ⟨f, rfl⟩ : ∃ f, fuel = f + 1 :=
    ⟨fuel - 1, (Nat.succ_pred_eq_of_pos hf).symm⟩
  have hw : 0 < win.window_size := Nat.lt_of_le_of_lt (Nat.zero_le _) hi
  have hp : (fun pk => pk.seq_num == win.base && pk.acknowledged) (win.slot i) = true := by
    dsimp only
    rw [hseq, hack, beq_self_eq_true, Bool.and_true]
  have hsome := @scanSlots_isSome win (win.base % win.window_size)
    (fun pk => pk.seq_num == win.base && pk.acknowledged) hw i hi hp
  rw [windowSlideLoop]
  cases hsc : scanSlots win (win.base % win.window_size)
      (fun pk => pk.seq_num == win.base && pk.acknowledged)
      (List.range win.window_size) with
  | none => rw [hsc] at hsome; cases hsome
  | some idx =>
      dsimp only
      exact slideLoop_base_mono f { win with packets := win.packets.set idx Packet.cleared, base := win.base + 1 }

/-- Slot read after a combined slot write and base change. -/
theorem slot_set_base {win : Window} {j b : Nat} {q : Packet} {i : Nat} :
    (Window.slot { win with packets := win.packets.set j q, base := b } i) =
      if j = i ∧ j < win.packets.length then q else win.slot i := by
  dsimp only [Window.slot]
  rw [getD_set_eq]

/-- The slide keeps the base bounded by N and preserves the slot seq
bound, provided every acknowledged slot's seq is below N. -/
theorem slideLoop_bound {w N : Nat} (fuel : Nat) : ∀ (win : Window),
    win.window_size = w → win.packets.length = w → win.base ≤ N →
    (∀ i < w, (win.slot i).seq_num ≠ 0 → (win.slot i).seq_num < N) →
    (∀ i < w, (win.slot i).acknowledged = true → (win.slot i).seq_num < N) →
    (windowSlideLoop win fuel).base ≤ N ∧
    (∀ i < w, ((windowSlideLoop win fuel).slot i).seq_num ≠ 0 →
      ((windowSlideLoop win fuel).slot i).seq_num < N) := by
  induction fuel with
  | zero => intro win _ _ hb h45 _; exact ⟨hb, h45⟩
  | succ f ih =>
      intro win hws hlen hb h45 hack
      rw [windowSlideLoop]
      cases hsc : scanSlots win (win.base % win.window_size)
          (fun pk => pk.seq_num == win.base && pk.acknowledged)
          (List.range win.window_size) with
      | none => exact ⟨hb, h45⟩
      | some idx =>
          dsimp only
          have hidx := scanSlots_eq_some (scanSlots_range_pos hsc) hsc
          have hidxw : idx < w := hws ▸ hidx.1
          have hpred := hidx.2
          rw [Bool.and_eq_true, beq_iff_eq] at hpred
          have hblt : win.base < N := by
            have := hack idx hidxw hpred.2
            omega
          refine ih _ hws (by rw [List.length_set]; exact hlen) hblt ?_ ?_
          · intro i hi
            rw [slot_set_base]
            by_cases hji : idx = i ∧ idx < win.packets.length
            · rw [if_pos hji]
              intro hc
              cases hc rfl
            · rw [if_neg hji]
              exact h45 i hi
          · intro i hi
            rw [slot_set_base]
            by_cases hji : idx = i ∧ idx < win.packets.length
            · rw [if_pos hji]
              intro hc
              cases hc
            · rw [if_neg hji]
              exact hack i hi


/-! ### Sender-session invariant: window_mark_ack shape analysis -/

/-- window_mark_ack either returns the window unchanged, or re-clears the
acknowledged flag of one slot, or runs the marking loop over a seq list
headed by the window base. -/
theorem markAck_shape (st : AckStatics) (win : Window) (a : Nat)
    (hw : 0 < win.window_size) :
    (windowMarkAck st win a).2 = win ∨
    (∃ i p', p'.seq_num = (win.slot i).seq_num ∧ p'.data = (win.slot i).data ∧
      p'.acknowledged = false ∧
      (windowMarkAck st win a).2 = { win with packets := win.packets.set i p' }) ∨
    ∃ L, (windowMarkAck st win a).2 = markSeqs win (win.base :: L) := by
  by_cases h1 : a = u32pred win.base
  · by_cases h2 : st.last_repeated_ack = a
    · by_cases h3 : 3 ≤ st.repeat_count + 1
      · by_cases h4 : (win.slot (win.base % win.window_size)).data ≠ none ∧
            (win.slot (win.base % win.window_size)).seq_num = win.base
        · right; left
          refine ⟨win.base % win.window_size,
            { win.slot (win.base % win.window_size) with acknowledged := false },
            rfl, rfl, rfl, ?_⟩
          rw [windowMarkAck, if_pos h1, if_pos h2]
          dsimp only
          rw [if_pos h3]
          dsimp only
          rw [if_pos h4]
        · left
          rw [windowMarkAck, if_pos h1, if_pos h2]
          dsimp only
          rw [if_pos h3]
          dsimp only
          rw [if_neg h4]
      · left
        rw [windowMarkAck, if_pos h1, if_pos h2]
        dsimp only
        rw [if_neg h3]
    · left
      rw [windowMarkAck, if_pos h1, if_neg h2]
  · by_cases h2 : a < win.base ∧ 5 < win.base - a
    · left
      rw [windowMarkAck, if_neg h1, if_pos h2]
    · right; right
      have hM : M32 = 4294967296 := rfl
      have hpos : 0 < (if win.window_size <
          (if win.base ≤ a then a - win.base + 1 else M32 - win.base + a)
          then win.window_size
          else (if win.base ≤ a then a - win.base + 1 else M32 - win.base + a)) := by
        by_cases hc : win.base ≤ a
        · rw [if_pos hc]
          by_cases hd : win.window_size < a - win.base + 1
          · rw [if_pos hd]; exact hw
          · rw [if_neg hd]; omega
        · rw [if_neg hc]
          have hc2 : ¬ 5 < win.base - a := fun h5 => h2 ⟨by omega, h5⟩
          by_cases hd : win.window_size < M32 - win.base + a
          · rw [if_pos hd]; exact hw
          · rw [if_neg hd]; omega
      obtain ⟨k, hk⟩ : ∃ k, (if win.window_size <
          (if win.base ≤ a then a - win.base + 1 else M32 - win.base + a)
          then win.window_size
          else (if win.base ≤ a then a - win.base + 1 else M32 - win.base + a)) = k + 1 :=
        ⟨_ - 1, (Nat.succ_pred_eq_of_pos hpos).symm⟩
      refine ⟨(List.map Nat.succ (List.range k)).map (win.base + ·), ?_⟩
      rw [windowMarkAck, if_neg h1, if_neg h2]
      dsimp only
      rw [hk, List.range_succ_eq_map, List.map_cons, Nat.add_zero]

/-- window_mark_ack changes no slot's seq or data, nor the window's size,
base or slot count. -/
theorem markAck_skel (st : AckStatics) (win : Window) (a : Nat)
    (hw : 0 < win.window_size) :
    (windowMarkAck st win a).2.window_size = win.window_size ∧
    (windowMarkAck st win a).2.base = win.base ∧
    (windowMarkAck st win a).2.packets.length = win.packets.length ∧
    ∀ i, ((windowMarkAck st win a).2.slot i).seq_num = (win.slot i).seq_num ∧
      ((windowMarkAck st win a).2.slot i).data = (win.slot i).data := by
  rcases markAck_shape st win a hw with h | ⟨i0, p', hs, hd, hA, h⟩ | ⟨L, h⟩
  · rw [h]
    exact ⟨rfl, rfl, rfl, fun i => ⟨rfl, rfl⟩⟩
  · rw [h]
    refine ⟨rfl, rfl, by simp [List.length_set], ?_⟩
    intro i
    rw [slot_set]
    by_cases hc : i0 = i ∧ i0 < win.packets.length
    · rw [if_pos hc]
      rcases hc with ⟨rfl, -⟩
      exact ⟨hs, hd⟩
    · rw [if_neg hc]
      exact ⟨rfl, rfl⟩
  · rw [h]
    exact ⟨markSeqs_window_size _ _, markSeqs_base _ _, markSeqs_length _ _,
      fun i => markSeqs_skel _ _ i⟩

/-- Either window_mark_ack acknowledges nothing new, or it runs the
marking loop on a seq list headed by the base. -/
theorem markAck_cases (st : AckStatics) (win : Window) (a : Nat)
    (hw : 0 < win.window_size) :
    (∀ i, (((windowMarkAck st win a).2).slot i).acknowledged = true →
      (win.slot i).acknowledged = true) ∨
    ∃ L, (windowMarkAck st win a).2 = markSeqs win (win.base :: L) := by
  rcases markAck_shape st win a hw with h | ⟨i0, p', hs, hd, hA, h⟩ | ⟨L, h⟩
  · left
    intro i hi
    rw [h] at hi
    exact hi
  · left
    intro i hi
    rw [h, slot_set] at hi
    by_cases hc : i0 = i ∧ i0 < win.packets.length
    · rw [if_pos hc] at hi
      rw [hA] at hi
      cases hi
    · rw [if_neg hc] at hi
      exact hi
  · exact Or.inr ⟨L, h⟩


/-! ### Sender-session invariant: preservation by RR processing -/

/-- The window_mark_ack / window_slide pair of every RR-handling site
preserves the session window invariant and never moves the base
backwards. -/
theorem WInv_markSlide {w N : Nat} {st : AckStatics} {win : Window} {a : Nat}
    (hw : 1 ≤ w) (hN : 1 ≤ N) (hI : WInv w N win) :
    WInv w N (windowSlide (windowMarkAck st win a).2) ∧
    win.base ≤ (windowSlide (windowMarkAck st win a).2).base := by
  obtain ⟨hws, hlen, hb, h45, h7, h8⟩ := hI
  have hw0 : 0 < win.window_size := by omega
  obtain ⟨hmws, hmb, hmlen, hmskel⟩ := markAck_skel st win a hw0
  have hm45 : ∀ i < w, (((windowMarkAck st win a).2).slot i).seq_num ≠ 0 →
      (((windowMarkAck st win a).2).slot i).seq_num < N := by
    intro i hi
    rw [(hmskel i).1]
    exact h45 i hi
  have hmack : ∀ i < w, (((windowMarkAck st win a).2).slot i).acknowledged = true →
      (((windowMarkAck st win a).2).slot i).seq_num < N := by
    intro i hi _
    by_cases hz : (((windowMarkAck st win a).2).slot i).seq_num = 0
    · omega
    · exact hm45 i hi hz
  have hmbN : ((windowMarkAck st win a).2).base ≤ N := by rw [hmb]; exact hb
  have hfuel : ((windowMarkAck st win a).2).window_size = w := by rw [hmws]; exact hws
  have hmlenw : ((windowMarkAck st win a).2).packets.length = w := by
    rw [hmlen]; exact hlen
  have hbound := @slideLoop_bound w N
    ((windowMarkAck st win a).2.window_size) ((windowMarkAck st win a).2)
    hfuel hmlenw hmbN hm45 hmack
  have hmono := slideLoop_base_mono ((windowMarkAck st win a).2.window_size)
    ((windowMarkAck st win a).2)
  refine ⟨⟨?_, ?_, ?_, ?_, ?_, ?_⟩, ?_⟩
  · rw [windowSlide, slideLoop_window_size]; exact hfuel
  · rw [windowSlide, slideLoop_length]; exact hmlenw
  · rw [windowSlide]; exact hbound.1
  · rw [windowSlide]; exact hbound.2
  · rw [windowSlide]
    intro hb0 hN1
    have hwmb : ((windowMarkAck st win a).2).base = 0 := by
      have := slideLoop_base_mono ((windowMarkAck st win a).2.window_size)
        ((windowMarkAck st win a).2)
      omega
    have hid := slideLoop_id_of_base_eq ((windowMarkAck st win a).2.window_size)
      ((windowMarkAck st win a).2) (by rw [hb0, hwmb])
    rw [hid]
    have hwin0 : win.base = 0 := by rw [← hmb]; exact hwmb
    rcases h7 hwin0 hN1 with ⟨h7s, h7d⟩
    constructor
    · rw [(hmskel 0).1]; exact h7s
    · rw [(hmskel 0).2]; exact h7d
  · rw [windowSlide]
    intro hb0
    have hwmb : ((windowMarkAck st win a).2).base = 0 := by
      have := slideLoop_base_mono ((windowMarkAck st win a).2.window_size)
        ((windowMarkAck st win a).2)
      omega
    have hid := slideLoop_id_of_base_eq ((windowMarkAck st win a).2.window_size)
      ((windowMarkAck st win a).2) (by rw [hb0, hwmb])
    rw [hid]
    have hwin0 : win.base = 0 := by rw [← hmb]; exact hwmb
    rcases markAck_cases st win a hw0 with hcase | ⟨L, hL⟩
    · intro i hi
      cases hag : (((windowMarkAck st win a).2).slot i).acknowledged with
      | false => rfl
      | true =>
          have := h8 hwin0 i hi
          rw [hcase i hag] at this
          cases this
    · exfalso
      have hlenws : win.packets.length = win.window_size := by rw [hlen, hws]
      have hs0 : (win.slot (win.base % win.window_size)).seq_num = win.base := by
        rw [hwin0, Nat.zero_mod]
        exact (h7 hwin0 hN).1
      have hhit := markLoopBody_hits hw0 hlenws hs0
      have hacked := markSeqs_acked_mono L (markLoopBody win win.base)
        (win.base % win.window_size) hhit
      have hackedw : ((markSeqs win (win.base :: L)).slot
          (win.base % win.window_size)).acknowledged = true := by
        rw [markSeqs]; exact hacked
      have hseqk : ((markSeqs win (win.base :: L)).slot
          (win.base % win.window_size)).seq_num = (markSeqs win (win.base :: L)).base := by
        rw [(markSeqs_skel (win.base :: L) win (win.base % win.window_size)).1,
          markSeqs_base]
        exact hs0
      have hposf : 0 < (markSeqs win (win.base :: L)).window_size := by
        rw [markSeqs_window_size]; exact hw0
      have hidx : win.base % win.window_size < (markSeqs win (win.base :: L)).window_size := by
        rw [markSeqs_window_size]; exact Nat.mod_lt _ hw0
      have hadv := @slideLoop_advance (markSeqs win (win.base :: L))
        ((markSeqs win (win.base :: L)).window_size) hposf
        (win.base % win.window_size) hidx hseqk hackedw
      rw [hL] at hb0
      have hmsb : (markSeqs win (win.base :: L)).base = win.base := markSeqs_base _ _
      omega
  · rw [windowSlide]
    calc win.base = ((windowMarkAck st win a).2).base := hmb.symm
      _ ≤ _ := hmono


/-! ### Sender-session invariant: preservation by window_add_packet -/

/-- Characterization of the slot window_add_packet writes when the seq is
not rejected as far-ahead: the written index is in range, and it is
either the expected index or — after a conflict at the expected index —
a slot that was empty or acknowledged. -/
theorem addPacket_cases (win : Window) (seq : Nat) (d : Pdu) (len flag : Nat)
    (hw : 0 < win.window_size)
    (hnf : ¬ (win.base + 2 * win.window_size < seq)) :
    ∃ i, i < win.window_size ∧
      (windowAddPacket win seq d len flag).2 =
        { win with packets := win.packets.set i (storedPacket seq d len flag) } ∧
      (i = seq % win.window_size ∨
        (((win.slot i).data.isNone || (win.slot i).acknowledged) = true ∧
          (win.slot (seq % win.window_size)).data ≠ none ∧
          (win.slot (seq % win.window_size)).seq_num ≠ seq)) := by
  by_cases hc : (win.slot (seq % win.window_size)).data ≠ none ∧
      (win.slot (seq % win.window_size)).seq_num ≠ seq
  · by_cases hin : win.base ≤ seq ∧ seq < win.base + win.window_size
    · refine ⟨findAltSlot win (seq % win.window_size), ?_, ?_, ?_⟩
      · rw [findAltSlot]
        cases hsc : scanSlots win (seq % win.window_size)
            (fun pk => pk.data.isNone || pk.acknowledged)
            (List.range win.window_size) with
        | some alt =>
            dsimp only
            exact (scanSlots_eq_some hw hsc).1
        | none =>
            dsimp only
            exact Nat.mod_lt _ hw
      · rw [windowAddPacket, if_neg hnf]
        dsimp only
        rw [if_pos hc, if_pos hin]
        rfl
      · rw [findAltSlot]
        cases hsc : scanSlots win (seq % win.window_size)
            (fun pk => pk.data.isNone || pk.acknowledged)
            (List.range win.window_size) with
        | some alt =>
            dsimp only
            exact Or.inr ⟨(scanSlots_eq_some hw hsc).2, hc.1, hc.2⟩
        | none =>
            dsimp only
            exact Or.inl rfl
    · refine ⟨seq % win.window_size, Nat.mod_lt _ hw, ?_, Or.inl rfl⟩
      rw [windowAddPacket, if_neg hnf]
      dsimp only
      rw [if_pos hc, if_neg hin]
      rfl
  · refine ⟨seq % win.window_size, Nat.mod_lt _ hw, ?_, Or.inl rfl⟩
    rw [windowAddPacket, if_neg hnf]
    dsimp only
    rw [if_neg hc]
    rfl

/-- window_add_packet preserves the session window invariant when the
added seq is below the (possibly advanced) packet count Np, under the
call-site side conditions of send_data_packets: at base 0 a seq stored
at index 0 is seq 0, and in a virgin session only seq 0 is added. -/
theorem WInv_addPacket {w N Np : Nat} {win : Window} (seq : Nat) (d : Pdu)
    (len flag : Nat) (hw : 1 ≤ w) (hI : WInv w N win) (hNN : N ≤ Np)
    (hseq : seq < Np) (h0 : win.base = 0 → seq % w = 0 → seq = 0)
    (hN0 : N = 0 → seq = 0) :
    WInv w Np (windowAddPacket win seq d len flag).2 ∧
    (windowAddPacket win seq d len flag).2.base = win.base := by
  obtain ⟨hws, hlen, hb, h45, h7, h8⟩ := hI
  have hw0 : 0 < win.window_size := by omega
  by_cases hfar : win.base + 2 * win.window_size < seq
  · have hres : (windowAddPacket win seq d len flag).2 = win := by
      rw [windowAddPacket, if_pos hfar]
    rw [hres]
    refine ⟨⟨hws, hlen, by omega, ?_, ?_, h8⟩, rfl⟩
    · intro i hi hnz
      exact lt_of_lt_of_le (h45 i hi hnz) hNN
    · intro hb0 hN1
      rcases Nat.eq_zero_or_pos N with hNz | hNpos
      · exfalso
        rw [hN0 hNz] at hfar
        omega
      · exact h7 hb0 hNpos
  · obtain ⟨i, hiw, hres, hsrc⟩ := addPacket_cases win seq d len flag hw0 hfar
    rw [hres]
    have hilen : i < win.packets.length := by omega
    refine ⟨⟨hws, ?_, ?_, ?_, ?_, ?_⟩, rfl⟩
    · show (win.packets.set i (storedPacket seq d len flag)).length = w
      rw [List.length_set]
      exact hlen
    · show win.base ≤ Np
      omega
    · intro j hj hnz
      rw [slot_set] at hnz ⊢
      by_cases hji : i = j ∧ i < win.packets.length
      · rw [if_pos hji] at hnz ⊢
        exact hseq
      · rw [if_neg hji] at hnz ⊢
        exact lt_of_lt_of_le (h45 j hj hnz) hNN
    · intro hb0 hNp1
      by_cases hi0 : i = 0
      · subst hi0
        rw [slot_set, if_pos ⟨rfl, hilen⟩]
        have hseq0 : seq = 0 := by
          rcases hsrc with hsrc | ⟨hpred, hcd, hcs⟩
          · exact h0 hb0 (by rw [← hws]; omega)
          · rcases Nat.eq_zero_or_pos N with hNz | hNpos
            · exact hN0 hNz
            · exfalso
              rcases h7 hb0 hNpos with ⟨-, h7d⟩
              have hackf := h8 hb0 0 (by omega)
              rw [Bool.or_eq_true, Option.isNone_iff_eq_none] at hpred
              rcases hpred with hpred | hpred
              · rw [Option.isSome_iff_ne_none] at h7d
                exact h7d hpred
              · rw [hackf] at hpred
                cases hpred
        rw [hseq0]
        exact ⟨rfl, rfl⟩
      · rw [slot_set, if_neg (fun hx => hi0 hx.1)]
        rcases Nat.eq_zero_or_pos N with hNz | hNpos
        · exfalso
          have hseq0 := hN0 hNz
          subst hseq0
          rcases hsrc with hsrc | ⟨hpred, hcd, hcs⟩
          · rw [Nat.zero_mod] at hsrc
            exact hi0 hsrc
          · have hs0 : (win.slot (0 % win.window_size)).seq_num = 0 := by
              by_cases hz : (win.slot (0 % win.window_size)).seq_num = 0
              · exact hz
              · have := h45 (0 % win.window_size)
                  (by rw [← hws]; exact Nat.mod_lt _ hw0) hz
                omega
            exact hcs hs0
        · exact h7 hb0 hNpos
    · intro hb0 j hj
      rw [slot_set]
      by_cases hji : i = j ∧ i < win.packets.length
      · rw [if_pos hji]
        rfl
      · rw [if_neg hji]
        exact h8 hb0 j hj


/-- Rewriting one slot's stored bytes in place (SREJ / repeated-RR /
timeout retransmissions) preserves the session window invariant. -/
theorem WInv_refresh {w N : Nat} {win : Window} (i : Nat) (p' : Packet)
    (hI : WInv w N win)
    (hs : p'.seq_num = (win.slot i).seq_num)
    (ha : p'.acknowledged = (win.slot i).acknowledged)
    (hd : p'.data.isSome = true) :
    WInv w N { win with packets := win.packets.set i p' } := by
  obtain ⟨hws, hlen, hb, h45, h7, h8⟩ := hI
  refine ⟨hws, ?_, hb, ?_, ?_, ?_⟩
  · show (win.packets.set i p').length = w
    rw [List.length_set]
    exact hlen
  · intro j hj hnz
    rw [slot_set] at hnz ⊢
    by_cases hji : i = j ∧ i < win.packets.length
    · rw [if_pos hji] at hnz ⊢
      rw [hs] at hnz ⊢
      rcases hji with ⟨rfl, -⟩
      exact h45 _ hj hnz
    · rw [if_neg hji] at hnz ⊢
      exact h45 j hj hnz
  · intro hb0 hN1
    rcases h7 hb0 hN1 with ⟨h7s, h7d⟩
    rw [slot_set]
    by_cases hji : i = 0 ∧ i < win.packets.length
    · rw [if_pos hji]
      rcases hji with ⟨rfl, -⟩
      exact ⟨hs.trans h7s, hd⟩
    · rw [if_neg hji]
      exact ⟨h7s, h7d⟩
  · intro hb0 j hj
    rw [slot_set]
    by_cases hji : i = j ∧ i < win.packets.length
    · rw [if_pos hji]
      rcases hji with ⟨rfl, -⟩
      rw [ha]
      exact h8 hb0 _ hj
    · rw [if_neg hji]
      exact h8 hb0 j hj

theorem WInv_srej {w N : Nat} {win : Window} (s : Nat) (hI : WInv w N win) :
    WInv w N (srejResponse win s).2 ∧ (srejResponse win s).2.base = win.base := by
  rw [srejResponse]
  cases windowGetPacket win s with
  | none => exact ⟨hI, rfl⟩
  | some idx =>
      dsimp only
      cases (win.slot idx).data with
      | none => exact ⟨hI, rfl⟩
      | some pdu =>
          dsimp only
          exact ⟨WInv_refresh idx _ hI rfl rfl rfl, rfl⟩

theorem WInv_resendBase {w N : Nat} {win : Window} (hI : WInv w N win) :
    WInv w N (resendBaseUpdate win).1 ∧ (resendBaseUpdate win).1.base = win.base := by
  rw [resendBaseUpdate]
  cases findBaseDataIdx win with
  | none => exact ⟨hI, rfl⟩
  | some idx =>
      dsimp only
      cases (win.slot idx).data with
      | none => exact ⟨hI, rfl⟩
      | some pdu =>
          dsimp only
          exact ⟨WInv_refresh idx _ hI rfl rfl rfl, rfl⟩

/-- Processing one ack-socket datagram preserves the session window
invariant and never moves the base backwards. -/
theorem WInv_processAckDatagram {w N : Nat} (rrSt : RrStatics) (markSt : AckStatics)
    (win : Window) (ev : AckEvent) (hw : 1 ≤ w) (hN : 1 ≤ N) (hI : WInv w N win) :
    WInv w N (processAckDatagram rrSt markSt win ev).2.2.1 ∧
    win.base ≤ (processAckDatagram rrSt markSt win ev).2.2.1.base := by
  cases ev with
  | short => exact ⟨hI, Nat.le_refl _⟩
  | corrupt => exact ⟨hI, Nat.le_refl _⟩
  | other f => exact ⟨hI, Nat.le_refl _⟩
  | srej s =>
      rcases WInv_srej s hI with ⟨h1, h2⟩
      exact ⟨h1, by rw [processAckDatagram]; dsimp only; omega⟩
  | rr a =>
      rw [processAckDatagram]
      dsimp only
      by_cases h1 : rrSt.last_rr_seq = a ∧ a = u32pred win.base
      · rw [if_pos h1]
        by_cases h2 : 3 ≤ rrSt.repeat_rr_count + 1
        · rw [if_pos h2]
          dsimp only
          rcases @WInv_resendBase w N win hI with ⟨h3, h4⟩
          rcases WInv_markSlide hw hN h3 with ⟨h5, h6⟩
          exact ⟨h5, by omega⟩
        · rw [if_neg h2]
          dsimp only
          rcases WInv_markSlide hw hN hI with ⟨h5, h6⟩
          exact ⟨h5, h6⟩
      · rw [if_neg h1]
        by_cases h2 : a ≠ rrSt.last_rr_seq
        · rw [if_pos h2]
          dsimp only
          rcases WInv_markSlide hw hN hI with ⟨h5, h6⟩
          exact ⟨h5, h6⟩
        · rw [if_neg h2]
          dsimp only
          rcases WInv_markSlide hw hN hI with ⟨h5, h6⟩
          exact ⟨h5, h6⟩

/-- Draining the ack socket preserves the session window invariant and
never moves the base backwards. -/
theorem WInv_processAckPackets {w N : Nat} (events : List AckEvent) :
    ∀ (rrSt : RrStatics) (markSt : AckStatics) (win : Window),
    1 ≤ w → 1 ≤ N → WInv w N win →
    WInv w N (processAckPackets rrSt markSt win events).2.2.1 ∧
    win.base ≤ (processAckPackets rrSt markSt win events).2.2.1.base := by
  induction events with
  | nil => intro rrSt markSt win _ _ hI; exact ⟨hI, Nat.le_refl _⟩
  | cons e rest ih =>
      intro rrSt markSt win hw hN hI
      rw [processAckPackets]
      dsimp only
      rcases WInv_processAckDatagram rrSt markSt win e hw hN hI with ⟨h1, h2⟩
      rcases ih _ _ _ hw hN h1 with ⟨h3, h4⟩
      exact ⟨h3, by omega⟩


/-! ### Sender-session invariant: preservation by handle_timeout -/

theorem findTimeoutAlt_lt {win : Window} {s : Nat} (hw : 0 < win.window_size) :
    ∀ {l : List Nat} {ci : Nat}, findTimeoutAlt win s l = some ci →
    ci < win.window_size := by
  intro l
  induction l with
  | nil => intro ci h; cases h
  | cons a rest ih =>
      intro ci h
      rw [findTimeoutAlt] at h
      by_cases h1 : s ≤ win.base + a
      · rw [if_pos h1] at h; cases h
      · rw [if_neg h1] at h
        dsimp only at h
        by_cases h2 : ((win.slot ((win.base + a) % win.window_size)).seq_num == win.base + a
            && (win.slot ((win.base + a) % win.window_size)).data.isSome
            && !(win.slot ((win.base + a) % win.window_size)).acknowledged) = true
        · rw [if_pos h2] at h
          cases h
          exact Nat.mod_lt _ hw
        · rw [if_neg h2] at h
          exact ih h

/-- Force-acknowledging one slot and sliding preserves the session
window invariant, provided at base 0 the forced slot carries seq 0 (so
the slide is guaranteed to advance past it). -/
theorem WInv_ackSlide {w N : Nat} {win : Window} (i : Nat) (p2 : Packet)
    (hw : 1 ≤ w) (hN : 1 ≤ N) (hI : WInv w N win) (hiw : i < w)
    (hseq2 : p2.seq_num = (win.slot i).seq_num)
    (hb0 : win.base = 0 → (win.slot i).seq_num = 0)
    (hack2 : p2.acknowledged = true) :
    WInv w N (windowSlide { win with packets := win.packets.set i p2 }) ∧
    win.base ≤ (windowSlide { win with packets := win.packets.set i p2 }).base := by
  obtain ⟨hws, hlen, hb, h45, h7, h8⟩ := hI
  have hwsA : ({ win with packets := win.packets.set i p2 } : Window).window_size = w := hws
  have hlenA : ({ win with packets := win.packets.set i p2 } : Window).packets.length = w := by
    show (win.packets.set i p2).length = w
    rw [List.length_set]
    exact hlen
  have hilen : i < win.packets.length := by omega
  have h45A : ∀ j < w,
      (({ win with packets := win.packets.set i p2 } : Window).slot j).seq_num ≠ 0 →
      (({ win with packets := win.packets.set i p2 } : Window).slot j).seq_num < N := by
    intro j hj hnz
    rw [slot_set] at hnz ⊢
    by_cases hji : i = j ∧ i < win.packets.length
    · rw [if_pos hji] at hnz ⊢
      rw [hseq2] at hnz ⊢
      rcases hji with ⟨rfl, -⟩
      exact h45 _ hj hnz
    · rw [if_neg hji] at hnz ⊢
      exact h45 j hj hnz
  have hackA : ∀ j < w,
      (({ win with packets := win.packets.set i p2 } : Window).slot j).acknowledged = true →
      (({ win with packets := win.packets.set i p2 } : Window).slot j).seq_num < N := by
    intro j hj _
    by_cases hz : (({ win with packets := win.packets.set i p2 } : Window).slot j).seq_num = 0
    · omega
    · exact h45A j hj hz
  have hbA : ({ win with packets := win.packets.set i p2 } : Window).base ≤ N := hb
  have hbound := @slideLoop_bound w N
    ({ win with packets := win.packets.set i p2 } : Window).window_size
    ({ win with packets := win.packets.set i p2 } : Window)
    hwsA hlenA hbA h45A hackA
  have hmono := slideLoop_base_mono
    ({ win with packets := win.packets.set i p2 } : Window).window_size
    ({ win with packets := win.packets.set i p2 } : Window)
  have heqb : ({ win with packets := win.packets.set i p2 } : Window).base = win.base := rfl
  rw [heqb] at hmono
  have hcontra : ∀ hb20 :
      (windowSlide { win with packets := win.packets.set i p2 }).base = 0, False := by
    intro hb20
    rw [windowSlide] at hb20
    have hwb0 : win.base = 0 := by omega
    have hsA : (({ win with packets := win.packets.set i p2 } : Window).slot i).seq_num =
        ({ win with packets := win.packets.set i p2 } : Window).base := by
      rw [slot_set, if_pos ⟨rfl, hilen⟩, hseq2, hb0 hwb0]
      exact hwb0.symm
    have haA : (({ win with packets := win.packets.set i p2 } : Window).slot i).acknowledged
        = true := by
      rw [slot_set, if_pos ⟨rfl, hilen⟩]
      exact hack2
    have hadv := @slideLoop_advance
      ({ win with packets := win.packets.set i p2 } : Window)
      (({ win with packets := win.packets.set i p2 } : Window).window_size)
      (by rw [hwsA]; omega) i (by rw [hwsA]; exact hiw) hsA haA
    rw [heqb] at hadv
    omega
  refine ⟨⟨?_, ?_, ?_, ?_, ?_, ?_⟩, ?_⟩
  · rw [windowSlide, slideLoop_window_size]
    exact hwsA
  · rw [windowSlide, slideLoop_length]
    exact hlenA
  · rw [windowSlide]
    exact hbound.1
  · rw [windowSlide]
    exact hbound.2
  · intro hb20 _
    exact absurd hb20 (fun h => hcontra h)
  · intro hb20
    exact absurd hb20 (fun h => hcontra h)
  · rw [windowSlide]
    exact hmono


/-- The retransmit path of handle_timeout preserves the session window
invariant; seq_num, the eof flag and the remaining file are untouched. -/
theorem WInv_resendTimeout {w N : Nat} {st : SenderState} (i : Nat)
    (hw : 1 ≤ w) (hN : 1 ≤ N) (hI : WInv w N st.win) (hiw : i < w)
    (hb0 : st.win.base = 0 → (st.win.slot i).seq_num = 0) :
    WInv w N (resendTimeoutPath st i).win ∧
    st.win.base ≤ (resendTimeoutPath st i).win.base ∧
    (resendTimeoutPath st i).seqNum = st.seqNum ∧
    (resendTimeoutPath st i).eofReached = st.eofReached ∧
    (resendTimeoutPath st i).file = st.file := by
  simp only [resendTimeoutPath]
  cases hd : (st.win.slot i).data with
  | none =>
      exact ⟨hI, Nat.le_refl _, rfl, rfl, rfl⟩
  | some pdu =>
      dsimp only
      have hrefresh := @WInv_refresh w N st.win i
        { st.win.slot i with
            data := some (resendWithFlag pdu FLAG_RESENT_TIMEOUT),
            retransmit_count := (st.win.slot i).retransmit_count + 1 }
        hI rfl rfl rfl
      by_cases hmax : MAX_RETRANSMIT ≤ (st.win.slot i).retransmit_count + 1
      · rw [if_pos hmax]
        rw [List.set_set]
        have hcore := @WInv_ackSlide w N st.win i
          { seq_num := (st.win.slot i).seq_num, len := (st.win.slot i).len,
            flag := (st.win.slot i).flag,
            data := some (resendWithFlag pdu FLAG_RESENT_TIMEOUT),
            acknowledged := true,
            retransmit_count := (st.win.slot i).retransmit_count + 1 }
          hw hN hI hiw rfl hb0 rfl
        split
        · exact ⟨hcore.1, hcore.2, rfl, rfl, rfl⟩
        · exact ⟨hcore.1, hcore.2, rfl, rfl, rfl⟩
      · rw [if_neg hmax]
        exact ⟨hrefresh, Nat.le_refl _, rfl, rfl, rfl⟩

/-- The forced-slide path of handle_timeout preserves the session window
invariant; seq_num, the eof flag and the remaining file are untouched. -/
theorem WInv_forceSlide {w N : Nat} {st : SenderState}
    (hw : 1 ≤ w) (hN : 1 ≤ N) (hI : WInv w N st.win) :
    WInv w N (forceSlidePath st).win ∧
    st.win.base ≤ (forceSlidePath st).win.base ∧
    (forceSlidePath st).seqNum = st.seqNum ∧
    (forceSlidePath st).eofReached = st.eofReached ∧
    (forceSlidePath st).file = st.file := by
  rw [forceSlidePath]
  by_cases htc : 10 < st.timeoutCounter
  · rw [if_pos htc]
    dsimp only
    have hws := hI.1
    have hw0 : 0 < st.win.window_size := by omega
    have hb0 : st.win.base = 0 →
        (st.win.slot (st.win.base % st.win.window_size)).seq_num = 0 := by
      intro hz
      rw [hz, Nat.zero_mod]
      exact (hI.2.2.2.2.1 hz hN).1
    have hcore := @WInv_ackSlide w N st.win (st.win.base % st.win.window_size)
      { st.win.slot (st.win.base % st.win.window_size) with acknowledged := true }
      hw hN hI (by rw [← hws]; exact Nat.mod_lt _ hw0) rfl hb0 rfl
    split
    · exact ⟨hcore.1, hcore.2, rfl, rfl, rfl⟩
    · exact ⟨hcore.1, hcore.2, rfl, rfl, rfl⟩
  · rw [if_neg htc]
    exact ⟨hI, Nat.le_refl _, rfl, rfl, rfl⟩


/-- handle_timeout preserves the session window invariant whenever the
window is full (its only call sites in send_data_packets); seq_num, the
eof flag and the remaining file are untouched. -/
theorem WInv_handleTimeout {w : Nat} {st : SenderState} (b : Nat)
    (hw : 1 ≤ w) (hI : WInv w st.seqNum st.win)
    (hfull : st.seqNum = st.win.base + w) :
    WInv w st.seqNum (handleTimeout b st).win ∧
    st.win.base ≤ (handleTimeout b st).win.base ∧
    (handleTimeout b st).seqNum = st.seqNum ∧
    (handleTimeout b st).eofReached = st.eofReached ∧
    (handleTimeout b st).file = st.file := by
  have hN : 1 ≤ st.seqNum := by omega
  have hws := hI.1
  have hw0 : 0 < st.win.window_size := by omega
  simp only [handleTimeout]
  by_cases hprim : ((st.win.slot (st.win.base % st.win.window_size)).seq_num == st.win.base
      && (st.win.slot (st.win.base % st.win.window_size)).data.isSome) = true
  · rw [if_pos hprim]
    refine WInv_resendTimeout _ hw hN hI (by rw [← hws]; exact Nat.mod_lt _ hw0) ?_
    intro hz
    have hab := hprim
    rw [Bool.and_eq_true] at hab
    rw [eq_of_beq hab.1]
    exact hz
  · rw [if_neg hprim]
    cases halt : findTimeoutAlt st.win st.seqNum (List.range st.win.window_size) with
    | some ci =>
        dsimp only
        refine WInv_resendTimeout _ hw hN hI
          (by rw [← hws]; exact findTimeoutAlt_lt hw0 halt) ?_
        intro hz
        exfalso
        rcases hI.2.2.2.2.1 hz hN with ⟨h7s, h7d⟩
        rw [hz, Nat.zero_mod] at hprim
        rw [h7s, h7d] at hprim
        exact hprim rfl
    | none =>
        dsimp only
        cases hcb : cbReadSeq st.cb b st.win.base with
        | some bytes =>
            dsimp only
            by_cases hpos : 0 < bytes.length
            · rw [if_pos hpos]
              have hadd := @WInv_addPacket w st.seqNum st.seqNum st.win st.win.base
                (mkPdu st.win.base FLAG_RESENT_TIMEOUT bytes)
                (pduLen (mkPdu st.win.base FLAG_RESENT_TIMEOUT bytes)) FLAG_RESENT_TIMEOUT
                hw hI (Nat.le_refl _) (by omega) (fun h _ => h) (by omega)
              exact ⟨hadd.1, by rw [hadd.2], rfl, rfl, rfl⟩
            · rw [if_neg hpos]
              exact WInv_forceSlide hw hN hI
        | none =>
            dsimp only
            exact WInv_forceSlide hw hN hI

/-- Sufficient fuel: the fill loop always terminates with its guard
false (the fuel in senderFillLoop's call site is file.length + 1). -/
theorem fillLoop_post {b w : Nat} : ∀ (fuel : Nat) (st : SenderState)
    (ack : List (List AckEvent)), st.file.length < fuel →
    ¬((senderFillLoop b w fuel st ack).seqNum -
        (senderFillLoop b w fuel st ack).win.base < w ∧
      (senderFillLoop b w fuel st ack).eofReached = false) := by
  intro fuel
  induction fuel with
  | zero => intro st ack hfuel; omega
  | succ f ih =>
      intro st ack hfuel
      rw [senderFillLoop]
      by_cases hg : st.seqNum - st.win.base < w ∧ st.eofReached = false
      · rw [if_pos hg]
        by_cases hbe : (st.file.take b).length = 0
        · rw [if_pos hbe]
          rintro ⟨-, hfe⟩
          cases hfe
        · rw [if_neg hbe]
          apply ih
          show (st.file.drop b).length < f
          rw [List.length_drop]
          rw [List.length_take] at hbe
          omega
      · rw [if_neg hg]
        exact hg

/-- The fill loop preserves the sender-session invariant. -/
theorem SInv_fillLoop {b w : Nat} (hw : 1 ≤ w) : ∀ (fuel : Nat) (st : SenderState)
    (ack : List (List AckEvent)), SInv w st →
    SInv w (senderFillLoop b w fuel st ack) := by
  intro fuel
  induction fuel with
  | zero => intro st ack hI; exact hI
  | succ f ih =>
      intro st ack hI
      rw [senderFillLoop]
      by_cases hg : st.seqNum - st.win.base < w ∧ st.eofReached = false
      · rw [if_pos hg]
        by_cases hbe : (st.file.take b).length = 0
        · rw [if_pos hbe]
          exact hI
        · rw [if_neg hbe]
          apply ih
          obtain ⟨hW, hS2⟩ := hI
          have hbase : st.win.base ≤ st.seqNum := hW.2.2.1
          have hroom : st.seqNum < st.win.base + w := by omega
          have hadd := @WInv_addPacket w st.seqNum (st.seqNum + 1) st.win st.seqNum
            (mkPdu st.seqNum FLAG_DATA (st.file.take b))
            (pduLen (mkPdu st.seqNum FLAG_DATA (st.file.take b))) FLAG_DATA
            hw hW (Nat.le_succ _) (Nat.lt_succ_self _) ?_ (fun h => by omega)
          · have hack := WInv_processAckPackets (ack.headD [])
              ((st : SenderState).ackStatics) st.markStatics _ hw (by omega) hadd.1
            constructor
            · exact hack.1
            · have h2 := hack.2
              rw [hadd.2] at h2
              have h3 : st.seqNum + 1 ≤ st.win.base + w := by omega
              exact le_trans h3 (Nat.add_le_add_right h2 w)
          · intro hb0 hmod
            rw [hb0] at hroom
            rw [Nat.mod_eq_of_lt (by omega)] at hmod
            exact hmod
      · rw [if_neg hg]
        exact hI


/-- The session invariant is insensitive to ending the transfer. -/
theorem SInv_active_if {w : Nat} {X : SenderState} {c : Prop} [Decidable c]
    (h : SInv w X) : SInv w (if c then { X with active := false } else X) := by
  split
  · exact h
  · exact h

/-- One main-loop iteration of send_data_packets preserves the
sender-session invariant. -/
theorem SInv_step {b w : Nat} (hw : 1 ≤ w) (st : SenderState) (ev : StepEvent)
    (hI : SInv w st) : SInv w (senderStep b w st ev) := by
  simp only [senderStep]
  by_cases hact : st.active = false
  · rw [if_pos hact]
    exact hI
  · rw [if_neg hact]
    have hI1 : SInv w (senderFillLoop b w (st.file.length + 1) st ev.fillAcks) :=
      SInv_fillLoop hw _ st ev.fillAcks hI
    have hpost := @fillLoop_post b w (st.file.length + 1) st ev.fillAcks
      (Nat.lt_succ_self _)
    set F := senderFillLoop b w (st.file.length + 1) st ev.fillAcks with hF
    by_cases hfin1 : F.eofReached = true ∧ F.win.base = F.seqNum
    · rw [if_pos hfin1]
      exact hI1
    · rw [if_neg hfin1]
      have hbs : F.win.base ≤ F.seqNum := hI1.1.2.2.1
      have hS2 : F.seqNum ≤ F.win.base + w := hI1.2
      have hN1 : 1 ≤ F.seqNum := by
        by_cases he : F.eofReached = true
        · have hne : F.win.base ≠ F.seqNum := fun h => hfin1 ⟨he, h⟩
          omega
        · have hef : F.eofReached = false := by
            cases hE : F.eofReached
            · rfl
            · exact absurd hE he
          have hge : ¬(F.seqNum - F.win.base < w) := fun hlt => hpost ⟨hlt, hef⟩
          omega
      have hpollcase : ∀ (Z : SenderState) (e : AckEvent), Z.seqNum = F.seqNum →
          Z.win = (processAckDatagram F.loopStatics F.markStatics F.win e).2.2.1 →
          SInv w Z := by
        intro Z e hZs hZw
        have hpad := WInv_processAckDatagram F.loopStatics F.markStatics F.win e hw hN1 hI1.1
        constructor
        · rw [hZs, hZw]
          exact hpad.1
        · rw [hZs, hZw]
          have := hpad.2
          omega
      have htcase : ∀ (Y : SenderState), Y.win = F.win → Y.seqNum = F.seqNum →
          Y.eofReached = F.eofReached → Y.file = F.file →
          F.seqNum = F.win.base + w → SInv w (handleTimeout b Y) := by
        intro Y hYw hYs hYe hYf hfull
        have hWY : WInv w Y.seqNum Y.win := by
          rw [hYw, hYs]
          exact hI1.1
        have hfullY : Y.seqNum = Y.win.base + w := by rw [hYw, hYs]; exact hfull
        rcases WInv_handleTimeout b hw hWY hfullY with ⟨hW2, hmono, hseqeq, -, -⟩
        constructor
        · rw [hseqeq]
          exact hW2
        · rw [hseqeq]
          omega
      by_cases hwf : F.seqNum - F.win.base = w
      · rw [if_pos hwf]
        by_cases hlb : F.win.base = F.lastBase
        · rw [if_pos hlb]
          dsimp only
          by_cases hforce : 3 ≤ F.timeoutCounter + 1
          · rw [decide_eq_true hforce]
            rw [if_neg (show ¬(true = false) from fun hc => Bool.noConfusion hc)]
            apply SInv_active_if
            exact htcase _ rfl rfl rfl rfl (by omega)
          · rw [decide_eq_false hforce]
            rw [if_pos rfl]
            cases hpoll : ev.poll with
            | some e =>
                dsimp only
                apply SInv_active_if
                exact hpollcase _ e rfl rfl
            | none =>
                dsimp only
                rw [if_pos hwf]
                apply SInv_active_if
                exact htcase _ rfl rfl rfl rfl (by omega)
        · rw [if_neg hlb]
          dsimp only
          rw [if_pos rfl]
          cases hpoll : ev.poll with
          | some e =>
              dsimp only
              apply SInv_active_if
              exact hpollcase _ e rfl rfl
          | none =>
              dsimp only
              rw [if_pos hwf]
              apply SInv_active_if
              exact htcase _ rfl rfl rfl rfl (by omega)
      · rw [if_neg hwf]
        dsimp only
        rw [if_pos rfl]
        cases hpoll : ev.poll with
        | some e =>
            dsimp only
            apply SInv_active_if
            exact hpollcase _ e rfl rfl
        | none =>
            dsimp only
            rw [if_neg hwf]
            apply SInv_active_if
            exact hI1


/-- Every slot of a fresh window is the cleared packet. -/
theorem windowInit_slot (w i : Nat) : (windowInit w).slot i = Packet.cleared := by
  rw [windowInit, Window.slot]
  dsimp only
  rcases Nat.lt_or_ge i w with h | h
  · rw [List.getD_eq_getElem?_getD, List.getElem?_eq_getElem (by simpa using h)]
    simp [List.getElem_replicate]
  · rw [List.getD_eq_getElem?_getD, List.getElem?_eq_none (by simpa using h)]
    rfl

/-- The sender-session invariant holds at initialization. -/
theorem SInv_init (b w : Nat) (file : List Nat) :
    SInv w (senderInit b w file) := by
  refine ⟨⟨rfl, ?_, Nat.le_refl 0, ?_, ?_, ?_⟩, ?_⟩
  · show (List.replicate w Packet.cleared).length = w
    rw [List.length_replicate]
  · intro i hi hnz
    rw [show (senderInit b w file).win = windowInit w from rfl, windowInit_slot] at hnz
    exact absurd rfl hnz
  · intro _ h1
    have hz : (senderInit b w file).seqNum = 0 := rfl
    omega
  · intro _ i hi
    rw [show (senderInit b w file).win = windowInit w from rfl, windowInit_slot]
    rfl
  · exact Nat.zero_le _

/-- The sender-session invariant holds after any event trace. -/
theorem SInv_run {b w : Nat} (hw : 1 ≤ w) (file : List Nat)
    (events : List StepEvent) : SInv w (senderRun b w file events) := by
  rw [senderRun]
  have hgen : ∀ (l : List StepEvent) (s : SenderState), SInv w s →
      SInv w (l.foldl (senderStep b w) s) := by
    intro l
    induction l with
    | nil => intro s hs; exact hs
    | cons e rest ih =>
        intro s hs
        rw [List.foldl_cons]
        exact ih _ (SInv_step hw s e hs)
  exact hgen events _ (SInv_init b w file)

/-- C3.  At every point during a sender session — that is, after any
sequence of send_data_packets main-loop iterations, with arbitrary ack
datagrams arriving in the fill loop and at the poll, and arbitrary
timeouts — the relation 0 ≤ base ≤ next_seq ≤ base + window_size holds
between the window base and the next sequence number to assign: the fill
loop, acknowledgement processing, timeout handling and window sliding
all preserve it. -/
theorem C3_sender_window_invariant (b w : Nat) (file : List Nat)
    (events : List StepEvent) (hw : 1 ≤ w) :
    0 ≤ (senderRun b w file events).win.base ∧
    (senderRun b w file events).win.base ≤ (senderRun b w file events).seqNum ∧
    (senderRun b w file events).seqNum ≤ (senderRun b w file events).win.base + w := by
  have h := @SInv_run b w hw file events
  exact ⟨Nat.zero_le _, h.1.2.2.1, h.2⟩

/-- Witness: a concrete three-byte transfer at window size 2 with an RR
arriving in the fill loop and one at the poll satisfies the C3 window
relation. -/
theorem C3_witness :
    1 ≤ 2 ∧
    (0 ≤ (senderRun 1 2 [7, 8, 9]
        [⟨[[AckEvent.rr 0]], some (AckEvent.rr 1)⟩]).win.base ∧
    (senderRun 1 2 [7, 8, 9]
        [⟨[[AckEvent.rr 0]], some (AckEvent.rr 1)⟩]).win.base ≤
      (senderRun 1 2 [7, 8, 9] [⟨[[AckEvent.rr 0]], some (AckEvent.rr 1)⟩]).seqNum ∧
    (senderRun 1 2 [7, 8, 9]
        [⟨[[AckEvent.rr 0]], some (AckEvent.rr 1)⟩]).seqNum ≤
      (senderRun 1 2 [7, 8, 9]
        [⟨[[AckEvent.rr 0]], some (AckEvent.rr 1)⟩]).win.base + 2) :=
  ⟨by decide,
    C3_sender_window_invariant 1 2 [7, 8, 9]
      [⟨[[AckEvent.rr 0]], some (AckEvent.rr 1)⟩] (by decide)⟩


/-! ### The lossless round trip: chunking lemmas -/

theorem chunksOf_flatten {b : Nat} (hb : 1 ≤ b) : ∀ (fuel : Nat) (l : List Nat),
    l.length ≤ fuel → (chunksOf b fuel l).flatten = l := by
  intro fuel
  induction fuel with
  | zero =>
      intro l hl
      have : l = [] := List.eq_nil_of_length_eq_zero (by omega)
      rw [this]
      rfl
  | succ f ih =>
      intro l hl
      cases l with
      | nil => rfl
      | cons c t =>
          rw [chunksOf, List.flatten_cons, ih]
          · exact List.take_append_drop b (c :: t)
          · rw [List.length_drop]
            have : (c :: t).length = t.length + 1 := rfl
            omega
          · intro h
            cases h

theorem chunksOf_length {b : Nat} (hb : 1 ≤ b) : ∀ (fuel : Nat) (l : List Nat),
    l.length ≤ fuel → (chunksOf b fuel l).length = (l.length + b - 1) / b := by
  intro fuel
  induction fuel with
  | zero =>
      intro l hl
      have : l = [] := List.eq_nil_of_length_eq_zero (by omega)
      rw [this]
      show 0 = (0 + b - 1) / b
      rw [Nat.div_eq_of_lt (by omega)]
  | succ f ih =>
      intro l hl
      cases l with
      | nil =>
          show 0 = (0 + b - 1) / b
          rw [Nat.div_eq_of_lt (by omega)]
      | cons c t =>
          rw [chunksOf, List.length_cons, ih _ (by rw [List.length_drop]; omega)]
          rw [List.length_drop]
          have hlen : 1 ≤ (c :: t).length := by
            rw [List.length_cons]
            omega
          have h1 : (c :: t).length + b - 1 = ((c :: t).length - 1) + b := by omega
          rw [h1, Nat.add_div_right _ (by omega)]
          rcases Nat.lt_or_ge (c :: t).length b with hc | hc
          · rw [Nat.div_eq_of_lt (by omega), Nat.div_eq_of_lt (by omega)]
          · have h2 : (c :: t).length - b + b - 1 = ((c :: t).length - 1) := by omega
            rw [h2]
          intro h
          cases h

/-- Every chunk read from the file is nonempty. -/
theorem chunksOf_ne_nil {b : Nat} (hb : 1 ≤ b) : ∀ (fuel : Nat) (l : List Nat),
    ∀ c ∈ chunksOf b fuel l, c ≠ [] := by
  intro fuel
  induction fuel with
  | zero =>
      intro l c hc
      cases l with
      | nil =>
          rw [show chunksOf b 0 ([] : List Nat) = [] from rfl] at hc
          cases hc
      | cons x t =>
          rw [show chunksOf b 0 (x :: t) = [] from rfl] at hc
          cases hc
  | succ f ih =>
      intro l c hc
      cases l with
      | nil =>
          rw [show chunksOf b (f + 1) ([] : List Nat) = [] from rfl] at hc
          cases hc
      | cons x t =>
          rw [chunksOf] at hc
          · rcases List.mem_cons.mp hc with rfl | hc
            · intro he
              have := congrArg List.length he
              rw [List.length_take] at this
              simp only [List.length_nil, List.length_cons] at this
              omega
            · exact ih _ c hc
          · intro h
            cases h

theorem getD_replicate {α : Type} (c : α) (n i : Nat) :
    (List.replicate n c).getD i c = c := by
  rcases Nat.lt_or_ge i n with h | h
  · rw [List.getD_eq_getElem?_getD, List.getElem?_eq_getElem (by simpa using h)]
    simp [List.getElem_replicate]
  · rw [List.getD_eq_getElem?_getD, List.getElem?_eq_none (by simpa using h)]
    rfl

theorem cleanWin_slot (w k i : Nat) : (cleanWin w k).slot i = Packet.cleared := by
  rw [cleanWin, Window.slot]
  dsimp only
  exact getD_replicate _ _ _

/-- A window whose slots are all empty holds no packet. -/
theorem windowGetPacket_none_of_clean {win : Window}
    (h : ∀ i, (win.slot i).data = none) (e : Nat) :
    windowGetPacket win e = none := by
  rw [windowGetPacket]
  by_cases h1 : e < win.base ∧ win.window_size < win.base - e
  · rw [if_pos h1]
  · rw [if_neg h1]
    by_cases h2 : win.base + win.window_size * 2 ≤ e
    · rw [if_pos h2]
    · rw [if_neg h2]
      apply scanSlots_eq_none_all
      intro i
      show ((win.slot i).seq_num == e && (win.slot i).data.isSome) = false
      rw [h i]
      exact Bool.and_false _


/-- Effect of one intact in-order DATA frame on a receiver whose
buffering window is empty: write the payload, RR the seq, advance the
expected seq; window, statics and eof data are untouched. -/
theorem receiverStep_inorder {rst : RecvState} {k : Nat} {c : List Nat}
    (hexp : rst.expected_seq = k)
    (hwin : ∀ i, (rst.win.slot i).data = none) :
    (receiverStep rst (RecvEvent.frame false FLAG_DATA k c)).writes =
      rst.writes ++ [(k, c)] ∧
    (receiverStep rst (RecvEvent.frame false FLAG_DATA k c)).sends =
      rst.sends ++ [(FLAG_RR, k)] ∧
    (receiverStep rst (RecvEvent.frame false FLAG_DATA k c)).expected_seq = k + 1 ∧
    (receiverStep rst (RecvEvent.frame false FLAG_DATA k c)).win = rst.win ∧
    (receiverStep rst (RecvEvent.frame false FLAG_DATA k c)).markStatics =
      rst.markStatics ∧
    (receiverStep rst (RecvEvent.frame false FLAG_DATA k c)).eofData = rst.eofData ∧
    (receiverStep rst (RecvEvent.frame false FLAG_DATA k c)).highest_received_seq =
      (if rst.highest_received_seq < k then k else rst.highest_received_seq) := by
  rw [receiverStep]
  dsimp only
  rw [if_neg Bool.false_ne_true, if_pos (Or.inl rfl), if_pos hexp.symm]
  rw [recvDrain]
  rw [windowGetPacket_none_of_clean hwin]
  dsimp only
  rw [hexp]
  by_cases hh : rst.highest_received_seq < k
  · rw [if_pos hh, if_pos hh]
    exact ⟨rfl, rfl, rfl, rfl, rfl, rfl, rfl⟩
  · rw [if_neg hh, if_neg hh]
    exact ⟨rfl, rfl, rfl, rfl, rfl, rfl, rfl⟩


/-! ### The lossless round trip: sender chunk step -/

theorem u32pred_ne {n : Nat} (h : n < M32) : u32pred n ≠ n := by
  cases n with
  | zero => decide
  | succ m =>
      rw [u32pred_succ h]
      omega

theorem set_replicate_self {α : Type} (c : α) : ∀ (n i : Nat),
    (List.replicate n c).set i c = List.replicate n c
  | 0, _ => rfl
  | n + 1, 0 => rfl
  | n + 1, i + 1 => by
      rw [List.replicate_succ]
      show c :: (List.replicate n c).set i c = c :: List.replicate n c
      rw [set_replicate_self c n i]

/-- A whole-window scan that hits at its start index. -/
theorem scanSlots_first_hit {win : Window} {start : Nat} {p : Packet → Bool} {m : Nat}
    (hm : win.window_size = m + 1) (hstart : start < win.window_size)
    (hp : p (win.slot start) = true) :
    scanSlots win start p (List.range win.window_size) = some start := by
  rw [show List.range win.window_size = 0 :: List.map Nat.succ (List.range m) from by
    rw [hm, List.range_succ_eq_map]]
  rw [scanSlots]
  rw [Nat.add_zero, Nat.mod_eq_of_lt hstart, if_pos hp]

/-- Storing seq k in a window whose slots are all cleared writes the
expected slot. -/
theorem addChunk_eq {w k : Nat} (hw : 1 ≤ w) (d : Pdu) (len flag : Nat) :
    (windowAddPacket (cleanWin w k) k d len flag).2 =
      { packets := (List.replicate w Packet.cleared).set (k % w) (storedPacket k d len flag),
        window_size := w, base := k, next_seq := 0 } := by
  rw [windowAddPacket]
  rw [if_neg (show ¬((cleanWin w k).base + 2 * (cleanWin w k).window_size < k) from by
    show ¬(k + 2 * w < k)
    omega)]
  rw [if_neg (show ¬(((cleanWin w k).slot (k % (cleanWin w k).window_size)).data ≠ none ∧
      ((cleanWin w k).slot (k % (cleanWin w k).window_size)).seq_num ≠ k) from by
    rw [cleanWin_slot]
    rintro ⟨h1, -⟩
    exact h1 rfl)]
  rfl

/-- Marking seq k on a window holding it at its expected index
acknowledges exactly that slot. -/
theorem markChunk_eq {W : Window} {w k : Nat} {p : Packet}
    (hw : 1 ≤ w) (hk : k < M32)
    (hws : W.window_size = w) (hlen : W.packets.length = w) (hbase : W.base = k)
    (hslot : W.slot (k % w) = p) (hp : p.seq_num = k) (st : AckStatics) :
    windowMarkAck st W k =
      (st, { W with packets :=
        W.packets.set (k % w) ({ p with acknowledged := true }) }) := by
  obtain ⟨m, hm⟩ : ∃ m, W.window_size = m + 1 :=
    ⟨W.window_size - 1, by omega⟩
  have hidx : k % W.window_size = k % w := by rw [hws]
  have hne : ¬(k = u32pred W.base) := by
    rw [hbase]
    exact fun h => (u32pred_ne hk) h.symm
  have hig : ¬(k < W.base ∧ 5 < W.base - k) := by
    rw [hbase]
    omega
  rw [windowMarkAck, if_neg hne, if_neg hig]
  dsimp only
  rw [if_pos (show W.base ≤ k from by rw [hbase])]
  rw [show k - W.base + 1 = 1 from by rw [hbase]; omega]
  rw [if_neg (show ¬(W.window_size < 1) from by rw [hws]; omega)]
  rw [show List.range 1 = [0] from rfl, List.map_cons, List.map_nil]
  rw [Nat.add_zero, markSeqs, markSeqs, markLoopBody]
  have hstart : W.base % W.window_size < W.window_size := by
    rw [hm]
    exact Nat.mod_lt _ (Nat.succ_pos m)
  have hbidx : W.base % W.window_size = k % w := by rw [hbase, hws]
  have hpred : (fun pk => pk.seq_num == W.base) (W.slot (W.base % W.window_size)) = true := by
    dsimp only
    rw [hbidx, hslot, hp, hbase]
    exact beq_self_eq_true k
  rw [scanSlots_first_hit hm hstart hpred]
  dsimp only
  rw [hbidx, hslot]

/-- After the only live slot is cleared, further sliding is the
identity. -/
theorem slideLoop_id_of_cleared {W : Window} {j b2 : Nat}
    (hrest : ∀ i, i ≠ j → W.slot i = Packet.cleared) (fuel : Nat) :
    windowSlideLoop { W with packets := W.packets.set j Packet.cleared, base := b2 } fuel
      = { W with packets := W.packets.set j Packet.cleared, base := b2 } := by
  apply slideLoop_eq_of_unacked
  intro q hq
  have hq2 : q ∈ W.packets.set j Packet.cleared := hq
  obtain ⟨i, hilen, hqe⟩ := List.mem_iff_getElem.mp hq2
  have hil2 : i < W.packets.length := by
    rw [List.length_set] at hilen
    exact hilen
  rw [List.getElem_set] at hqe
  by_cases hji : j = i
  · rw [if_pos hji] at hqe
    rw [← hqe]
    rfl
  · rw [if_neg hji] at hqe
    have hsl : W.slot i = q := by
      rw [slot_eq_getElem hil2]
      exact hqe
    rw [hrest i (fun h => hji h.symm)] at hsl
    rw [← hsl]
    rfl

/-- Sliding a window whose only live slot is an acknowledged seq k at the
base advances the base once and clears the slot. -/
theorem slideChunk_eq {W : Window} {w k : Nat} {p : Packet}
    (hw : 1 ≤ w) (hws : W.window_size = w) (hlen : W.packets.length = w)
    (hbase : W.base = k) (hslot : W.slot (k % w) = p)
    (hp : p.seq_num = k) (ha : p.acknowledged = true)
    (hrest : ∀ i, i ≠ k % w → W.slot i = Packet.cleared) :
    windowSlide W =
      { W with packets := W.packets.set (k % w) Packet.cleared, base := k + 1 } := by
  obtain ⟨m, hm⟩ : ∃ m, W.window_size = m + 1 :=
    ⟨W.window_size - 1, by omega⟩
  have hstart : W.base % W.window_size < W.window_size := by
    rw [hm]
    exact Nat.mod_lt _ (Nat.succ_pos m)
  have hbidx : W.base % W.window_size = k % w := by rw [hbase, hws]
  have hpred : (fun pk => pk.seq_num == W.base && pk.acknowledged)
      (W.slot (W.base % W.window_size)) = true := by
    dsimp only
    rw [hbidx, hslot, hp, ha, hbase]
    rw [beq_self_eq_true k]
    rfl
  rw [windowSlide, hm, windowSlideLoop, scanSlots_first_hit hm hstart hpred]
  dsimp only
  rw [slideLoop_id_of_cleared (by rw [hbidx]; exact hrest) m]
  rw [hbidx, hbase, ← hm]


/-- Mark-then-slide for the RR of the chunk just stored: the window comes
back clean with the base advanced. -/
theorem markSlideChunk_eq {w k : Nat} (hw : 1 ≤ w) (hk : k < M32)
    (markSt : AckStatics) (q : Packet) (hq : q.seq_num = k) :
    (windowMarkAck markSt
      { packets := (List.replicate w Packet.cleared).set (k % w) q,
        window_size := w, base := k, next_seq := 0 } k).1 = markSt ∧
    windowSlide (windowMarkAck markSt
      { packets := (List.replicate w Packet.cleared).set (k % w) q,
        window_size := w, base := k, next_seq := 0 } k).2 = cleanWin w (k + 1) := by
  have hidxlt : k % w < w := Nat.mod_lt _ (by omega)
  have hmark := @markChunk_eq
    { packets := (List.replicate w Packet.cleared).set (k % w) q,
      window_size := w, base := k, next_seq := 0 } w k q
    hw hk rfl
    (by show ((List.replicate w Packet.cleared).set (k % w) q).length = w
        rw [List.length_set, List.length_replicate])
    rfl
    (by show ((List.replicate w Packet.cleared).set (k % w) q).getD (k % w)
          Packet.cleared = q
        rw [getD_set_eq, if_pos ⟨rfl, by rw [List.length_replicate]; exact hidxlt⟩])
    hq markSt
  rw [hmark]
  refine ⟨rfl, ?_⟩
  dsimp only
  rw [List.set_set]
  have hslide := @slideChunk_eq
    { packets := (List.replicate w Packet.cleared).set (k % w) ({ q with acknowledged := true }), window_size := w, base := k, next_seq := 0 }
    w k ({ q with acknowledged := true })
    hw rfl
    (by show ((List.replicate w Packet.cleared).set (k % w) _).length = w
        rw [List.length_set, List.length_replicate])
    rfl
    (by show ((List.replicate w Packet.cleared).set (k % w) _).getD (k % w)
          Packet.cleared = _
        rw [getD_set_eq, if_pos ⟨rfl, by rw [List.length_replicate]; exact hidxlt⟩])
    (by show q.seq_num = k
        exact hq)
    rfl
    (by intro i hi
        show ((List.replicate w Packet.cleared).set (k % w) _).getD i Packet.cleared = _
        rw [getD_set_eq, if_neg (fun hc => hi hc.1.symm)]
        exact getD_replicate _ _ _)
  rw [hslide]
  dsimp only
  rw [List.set_set, set_replicate_self]
  rfl


/-- The ack-drain step of one synchronous fill iteration: the RR for the
chunk just stored marks it, slides the window, and sends nothing. -/
theorem processAckChunk {w k : Nat} (hw : 1 ≤ w) (hk : k < M32)
    (rrSt : RrStatics) (markSt : AckStatics) (d : Pdu) (len flag : Nat) :
    ∃ rrSt2, processAckDatagram rrSt markSt
        ((windowAddPacket (cleanWin w k) k d len flag).2) (AckEvent.rr k)
      = (rrSt2, markSt, cleanWin w (k + 1), []) := by
  rw [addChunk_eq hw d len flag]
  have hms := markSlideChunk_eq hw hk markSt (storedPacket k d len flag) rfl
  rw [processAckDatagram]
  rw [if_neg (show ¬(rrSt.last_rr_seq = k ∧ k = u32pred k) from by
    rintro ⟨-, h2⟩
    exact u32pred_ne hk h2.symm)]
  by_cases hlast : k ≠ rrSt.last_rr_seq
  · rw [if_pos hlast]
    dsimp only
    rw [hms.1, hms.2]
    exact ⟨_, rfl⟩
  · rw [if_neg hlast]
    dsimp only
    rw [hms.1, hms.2]
    exact ⟨_, rfl⟩

/-- process_ack_packets over the single RR of a synchronous fill
iteration. -/
theorem processAckPacketsChunk {w k : Nat} (hw : 1 ≤ w) (hk : k < M32)
    (rrSt : RrStatics) (markSt : AckStatics) (d : Pdu) (len flag : Nat) :
    ∃ rrSt2, processAckPackets rrSt markSt
        ((windowAddPacket (cleanWin w k) k d len flag).2) [AckEvent.rr k]
      = (rrSt2, markSt, cleanWin w (k + 1), []) := by
  obtain ⟨r2, hr⟩ := processAckChunk hw hk rrSt markSt d len flag
  rw [processAckPackets]
  rw [hr]
  exact ⟨r2, rfl⟩


/-- The data phase of the synchronous lossless schedule: starting from a
clean window at base k and a receiver expecting k with an empty buffering
window, every chunk is stored, delivered, acknowledged and slid past;
the transcript grows by exactly one DATA frame per chunk and the
receiver writes the chunks in order. -/
theorem composedData_spec {w : Nat} (hw : 1 ≤ w) :
    ∀ (cs : List (List Nat)) (k : Nat) (rrSt : RrStatics) (markSt : AckStatics)
      (rst : RecvState) (sent : List Pdu),
    k + cs.length < M32 →
    rst.expected_seq = k →
    (∀ i, (rst.win.slot i).data = none) →
    (composedData w cs (cleanWin w k) k rrSt markSt rst sent).1 =
      cleanWin w (k + cs.length) ∧
    (composedData w cs (cleanWin w k) k rrSt markSt rst sent).2.1 = k + cs.length ∧
    (composedData w cs (cleanWin w k) k rrSt markSt rst sent).2.2.2.2.1.expected_seq =
      k + cs.length ∧
    (∀ i, ((composedData w cs (cleanWin w k) k rrSt markSt rst sent).2.2.2.2.1.win.slot i).data
      = none) ∧
    (composedData w cs (cleanWin w k) k rrSt markSt rst sent).2.2.2.2.1.writes.map Prod.snd =
      rst.writes.map Prod.snd ++ cs ∧
    (composedData w cs (cleanWin w k) k rrSt markSt rst sent).2.2.2.2.1.eofData =
      rst.eofData ∧
    (composedData w cs (cleanWin w k) k rrSt markSt rst sent).2.2.2.2.2 =
      sent ++ dataPdus k cs := by
  intro cs
  induction cs with
  | nil =>
      intro k rrSt markSt rst sent hM hexp hwin
      refine ⟨rfl, rfl, ?_, hwin, ?_, rfl, ?_⟩
      · exact hexp
      · exact (List.append_nil _).symm
      · show sent = sent ++ dataPdus k []
        rw [show dataPdus k [] = [] from rfl, List.append_nil]
  | cons c rest ih =>
      intro k rrSt markSt rst sent hM hexp hwin
      have hk : k < M32 := by
        rw [List.length_cons] at hM
        omega
      have hrs := @receiverStep_inorder rst k c hexp hwin
      obtain ⟨rrSt2, hpp⟩ := processAckPacketsChunk hw hk rrSt markSt
        (mkPdu k FLAG_DATA c) (pduLen (mkPdu k FLAG_DATA c)) FLAG_DATA
      rw [composedData]
      rw [hrs.2.1, List.drop_left, List.map_cons, List.map_nil]
      rw [show ackOfSend (FLAG_RR, k) = AckEvent.rr k from rfl]
      rw [hpp]
      dsimp only
      rw [List.append_nil]
      have ihr := ih (k + 1) rrSt2 markSt
        (receiverStep rst (RecvEvent.frame false FLAG_DATA k c))
        (sent ++ [mkPdu k FLAG_DATA c])
        (by rw [List.length_cons] at hM; omega)
        hrs.2.2.1
        (by rw [hrs.2.2.2.1]; exact hwin)
      obtain ⟨ih1, ih2, ih3, ih4, ih5, ih6, ih7⟩ := ihr
      have hlen2 : k + 1 + rest.length = k + (c :: rest).length := by
        rw [List.length_cons]
        omega
      refine ⟨?_, ?_, ?_, ih4, ?_, ?_, ?_⟩
      · rw [ih1, hlen2]
      · rw [ih2, hlen2]
      · rw [ih3, hlen2]
      · rw [ih5, hrs.1, List.map_append]
        rw [List.append_assoc]
        rfl
      · rw [ih6, hrs.2.2.2.2.2.1]
      · rw [ih7, List.append_assoc]
        rfl


/-- Effect of the EOF frame on the receiver: it emits the closing RR
three times and touches neither writes nor (for an empty payload) the
eof data. -/
theorem receiverStep_eof {rst : RecvState} {m : Nat} :
    (receiverStep rst (RecvEvent.frame false FLAG_EOF m [])).sends =
      rst.sends ++ [(FLAG_RR, if 0 < rst.expected_seq then rst.expected_seq - 1 else 0),
        (FLAG_RR, if 0 < rst.expected_seq then rst.expected_seq - 1 else 0),
        (FLAG_RR, if 0 < rst.expected_seq then rst.expected_seq - 1 else 0)] ∧
    (receiverStep rst (RecvEvent.frame false FLAG_EOF m [])).writes = rst.writes ∧
    (receiverStep rst (RecvEvent.frame false FLAG_EOF m [])).eofData = rst.eofData := by
  rw [receiverStep]
  dsimp only
  rw [if_neg Bool.false_ne_true]
  rw [if_neg (show ¬(FLAG_EOF = FLAG_DATA ∨ FLAG_EOF = FLAG_RESENT_SREJ ∨
    FLAG_EOF = FLAG_RESENT_TIMEOUT) from by decide)]
  rw [if_pos (rfl : FLAG_EOF = FLAG_EOF)]
  rw [if_neg (show ¬(0 < ([] : List Nat).length) from by decide)]
  by_cases hh : rst.highest_received_seq < m
  · rw [if_pos hh]
    exact ⟨rfl, rfl, rfl⟩
  · rw [if_neg hh]
    exact ⟨rfl, rfl, rfl⟩

/-- With the window fully acknowledged, the first closing RR is accepted
and send_eof_packet transmits exactly one EOF frame. -/
theorem eofAccept (m : Nat) (h1 : 1 ≤ m) (hM : m < M32) (tail : List EofEvent) :
    sendEofPacket m (EofEvent.rr (m - 1) :: tail) = EofOutcome.acked 1 := by
  have hf : (EofEvent.rr (m - 1) :: tail).length + MAX_RETRANSMIT =
      tail.length + 10 + 1 := by
    show tail.length + 1 + 10 = tail.length + 10 + 1
    omega
  have hpred : u32pred m = m - 1 := by
    have h2 := @u32pred_succ (m - 1) (by omega)
    rw [show m - 1 + 1 = m from by omega] at h2
    exact h2
  rw [sendEofPacket, hf, eofLoop]
  rw [if_neg (show ¬(MAX_RETRANSMIT ≤ 0) from by decide)]
  dsimp only
  rw [if_pos (Or.inl (Nat.le_of_eq hpred))]

theorem dataPdus_length (cs : List (List Nat)) : ∀ k,
    (dataPdus k cs).length = cs.length := by
  induction cs with
  | nil => intro k; rfl
  | cons c rest ih =>
      intro k
      rw [dataPdus, List.length_cons, List.length_cons, ih]

theorem dataPdus_flag (cs : List (List Nat)) : ∀ k,
    ∀ p ∈ dataPdus k cs, p.flag = FLAG_DATA := by
  induction cs with
  | nil => intro k p hp; cases hp
  | cons c rest ih =>
      intro k p hp
      rw [dataPdus] at hp
      rcases List.mem_cons.mp hp with rfl | hp
      · rfl
      · exact ih _ p hp


/-- C1 counterexample: a complete lossless transfer of the empty file at
window size 1 and buffer size 1 delivers the empty output, emits zero
DATA frames — and then five EOF frames, not one: the receiver's closing
RR(0) fails the uint32 acceptance test `ack_seq >= base - 1` at base 0,
so send_eof_packet runs through all five attempts and closes
unilaterally. -/
theorem C1_counterexample :
    recvSink (composedRun 1 1 []).receiver = [] ∧
    (composedRun 1 1 []).dataFrames.length = 0 ∧
    (composedRun 1 1 []).eof = EofOutcome.closedUnilaterally 5 ∧
    EofOutcome.closedUnilaterally 5 ≠ EofOutcome.acked 1 := by
  refine ⟨?_, ?_, ?_, ?_⟩ <;> decide


/-- C1 (amended).  For every byte sequence B, window size at least 1 and
buffer size at least 1 (with the chunk count inside the uint32 seq
regime the embedding models), the complete lossless transfer under the
synchronous schedule writes exactly B to the client's output sink and
the sender emits exactly ⌈L/buffer_size⌉ DATA frames — followed by
exactly one EOF frame when L is at least 1, but by five EOF frames when
L = 0, because the receiver's closing RR(0) fails the uint32 acceptance
test against base - 1 = 2^32 - 1 and send_eof_packet exhausts its five
attempts and closes unilaterally. -/
theorem C1_roundtrip_amended (w b : Nat) (B : List Nat)
    (hw : 1 ≤ w) (hb : 1 ≤ b) (hM : (B.length + b - 1) / b < M32) :
    recvSink (composedRun w b B).receiver = B ∧
    (composedRun w b B).dataFrames.length = (B.length + b - 1) / b ∧
    (∀ p ∈ (composedRun w b B).dataFrames, p.flag = FLAG_DATA) ∧
    (composedRun w b B).eof = (if B.length = 0 then EofOutcome.closedUnilaterally 5
      else EofOutcome.acked 1) := by
  have hclen : (chunks b B).length = (B.length + b - 1) / b := by
    rw [chunks]
    exact chunksOf_length hb B.length B (Nat.le_refl _)
  have hMc : 0 + (chunks b B).length < M32 := by omega
  have hwin0 : ∀ i, (((receiverInit w).win).slot i).data = none := by
    intro i
    rw [show (receiverInit w).win = windowInit w from rfl, windowInit_slot]
    rfl
  obtain ⟨h1, h2, h3, h4, h5, h6, h7⟩ :=
    composedData_spec hw (chunks b B) 0 ⟨0, 0⟩ ⟨0, 0⟩ (receiverInit w) [] hMc rfl hwin0
  simp only [Nat.zero_add] at h1 h2 h3 h5
  rw [show (receiverInit w).writes = ([] : List (Nat × List Nat)) from rfl,
    List.map_nil, List.nil_append] at h5
  rw [show (receiverInit w).eofData = ([] : List Nat) from rfl] at h6
  rw [List.nil_append] at h7
  rw [composedRun]
  rw [show windowInit w = cleanWin w 0 from rfl]
  dsimp only
  have hEOF := @receiverStep_eof
    (composedData w (chunks b B) (cleanWin w 0) 0 ⟨0, 0⟩ ⟨0, 0⟩ (receiverInit w) []).2.2.2.2.1
    (composedData w (chunks b B) (cleanWin w 0) 0 ⟨0, 0⟩ ⟨0, 0⟩ (receiverInit w) []).2.1
  refine ⟨?_, ?_, ?_, ?_⟩
  · rw [recvSink, hEOF.2.1, hEOF.2.2, h5, h6, List.append_nil]
    rw [chunks]
    exact chunksOf_flatten hb B.length B (Nat.le_refl _)
  · rw [h7, dataPdus_length, hclen]
  · intro p hp
    rw [h7] at hp
    exact dataPdus_flag _ _ p hp
  · rw [hEOF.1, List.drop_left, h3, h1]
    rw [show (cleanWin w (chunks b B).length).base = (chunks b B).length from rfl]
    rw [List.map_cons, List.map_cons, List.map_cons, List.map_nil]
    by_cases hL : B.length = 0
    · rw [if_pos hL]
      have hB : B = [] := List.eq_nil_of_length_eq_zero hL
      subst hB
      rw [show (chunks b ([] : List Nat)).length = 0 from by rw [chunks]; rfl]
      decide
    · rw [if_neg hL]
      have hlen1 : 1 ≤ (chunks b B).length := by
        rw [hclen, Nat.one_le_div_iff (by omega)]
        omega
      rw [if_pos (by omega : 0 < (chunks b B).length)]
      rw [show eofEvOfSend (FLAG_RR, (chunks b B).length - 1) =
        EofEvent.rr ((chunks b B).length - 1) from rfl]
      exact eofAccept (chunks b B).length hlen1 (by omega) _


/-- Witness: the amended round-trip theorem applied to the three-byte
file [3, 4, 5] at window size 2 and buffer size 1. -/
theorem C1_witness :
    (1 ≤ 2 ∧ 1 ≤ 1 ∧ (([3, 4, 5] : List Nat).length + 1 - 1) / 1 < M32) ∧
    (recvSink (composedRun 2 1 [3, 4, 5]).receiver = [3, 4, 5] ∧
    (composedRun 2 1 [3, 4, 5]).dataFrames.length =
      (([3, 4, 5] : List Nat).length + 1 - 1) / 1 ∧
    (∀ p ∈ (composedRun 2 1 [3, 4, 5]).dataFrames, p.flag = FLAG_DATA) ∧
    (composedRun 2 1 [3, 4, 5]).eof =
      (if ([3, 4, 5] : List Nat).length = 0 then EofOutcome.closedUnilaterally 5
        else EofOutcome.acked 1)) :=
  ⟨⟨by decide, by decide, by decide⟩,
    C1_roundtrip_amended 2 1 [3, 4, 5] (by decide) (by decide) (by decide)⟩

end Prog3
